import Mathlib

/-! # ValueEditor::FormattersManager

A shallow embedding of `src/modules/value-editor/formattersmanager.cpp`: the
catalog of external formatter plugins, the scan that fills it, and the three
value operations that run a plugin as a subprocess.

The Qt library and the outside world are not part of the embedded file.  They
enter as parameters: `Qt` holds the library functions whose result depends on
text encodings and on the JSON parser, `Env.process` is the behaviour of the
processes that are started, and a scan receives the list of subdirectories in
the order the directory iterator yields them.  Everything a member function
does to the outside (signals, process control, callback calls) is recorded as
a list of `Event`s in program order.
-/

namespace ValueEditor

/-! ## Values of the Qt library -/

/-- Byte string (`QByteArray`), as the sequence of its bytes. -/
abbrev QByteArray := List (Fin 256)

/-- JSON value (`QJsonValue`).  A number keeps the text that
`QVariant::toString` renders it to; `undefined` is what `operator[]` of an
object gives for a key that is not there. -/
inductive QJsonValue where
  | undefined
  | null
  | bool (b : Bool)
  | double (text : String)
  | string (s : String)
  | array (items : List QJsonValue)
  | object (members : List (String × QJsonValue))

/-- JSON object (`QJsonObject`), as its key/value members. -/
abbrev QJsonObject := List (String × QJsonValue)

/-- The call `QJsonValue::toString()`: the string, or the empty string for a
value of any other kind. -/
def QJsonValue.toString : QJsonValue → String
  | .string s => s
  | _ => ""

/-- The call `QJsonValue::toBool()`: the boolean, or `false` for a value of any
other kind. -/
def QJsonValue.toBool : QJsonValue → Bool
  | .bool b => b
  | _ => false

/-- The call `QJsonValue::toVariant().toString()`, applied by
`QVariant::toStringList` to each element of a list: strings stay, booleans
and numbers are printed, everything else gives the empty string. -/
def QJsonValue.variantToString : QJsonValue → String
  | .string s => s
  | .bool true => "true"
  | .bool false => "false"
  | .double text => text
  | _ => ""

/-- The call `QJsonObject::operator[](key)`. -/
def QJsonObject.value (o : QJsonObject) (key : String) : QJsonValue :=
  (o.lookup key).getD .undefined

/-- Text of a `QString` built from a template by `.arg(...)` calls: the
template with its `%1`, `%2` place markers and the arguments in call order. -/
structure Message where
  template : String
  args : List String
  deriving DecidableEq, Repr

/-- Value handed to a script callback (`QJSValue`). -/
inductive QJSValue where
  | string (s : String)
  | formatted (m : Message)
  | bool (b : Bool)
  deriving DecidableEq, Repr

/-- Library functions of Qt that the file calls and whose result is fixed
outside of it.  `fromJson` is `QJsonDocument::fromJson`, `none` standing for
a parse error; `fromUtf8` is the conversion `QString(const QByteArray &)`. -/
structure Qt where
  fromJson : QByteArray → Option QJsonValue
  fromLocal8Bit : QByteArray → String
  fromUtf8 : QByteArray → String
  toUtf8 : String → QByteArray
  simplified : String → String
  translate : String → String → String

/-- What a started `QProcess` does: it does not reach the running state
within the 3000 ms of `waitForStarted`, or it runs and does not finish within
the 3000 ms of `waitForFinished` (having written some output so far), or it
finishes with its two output streams and an exit code. -/
inductive ProcessOutcome where
  | startTimeout (errorString : String)
  | runTimeout (errorString : String) (stdoutSoFar stderrSoFar : QByteArray)
  | finished (stdout stderr : QByteArray) (exitCode : Int)
  deriving DecidableEq, Repr

/-- The world a member function runs in: the Qt library and the behaviour of
a process given its argv, its working directory and the bytes written to its
standard input. -/
structure Env where
  qt : Qt
  process : List String → String → QByteArray → ProcessOutcome

/-- Effects of the member functions, in program order. -/
inductive Event where
  | error (message : Message)
  | start (program : String) (arguments : List String) (workingDirectory : String)
  | write (bytes : QByteArray)
  | closeWriteChannel
  | kill
  | call (arguments : List QJSValue)
  deriving DecidableEq, Repr

/-! ## Base64 (`QByteArray::toBase64`, RFC 4648 alphabet with padding) -/

/-- Character code of the sextet `i` in the base64 alphabet
`A-Z a-z 0-9 + /`. -/
def base64Char (i : Nat) : Fin 256 :=
  if i < 26 then Fin.ofNat (65 + i)
  else if i < 52 then Fin.ofNat (71 + i)
  else if i < 62 then Fin.ofNat (i - 4)
  else if i = 62 then 43
  else 47

/-- The padding character `=`. -/
def base64Pad : Fin 256 := 61

/-- The call `QByteArray::toBase64()`: three bytes become four characters,
a last group of one or two bytes is padded with `=`. -/
def toBase64 : QByteArray → QByteArray
  | a :: b :: c :: rest =>
    base64Char (a.val / 4) :: base64Char (a.val % 4 * 16 + b.val / 16) ::
      base64Char (b.val % 16 * 4 + c.val / 64) :: base64Char (c.val % 64) :: toBase64 rest
  | [a, b] =>
    [base64Char (a.val / 4), base64Char (a.val % 4 * 16 + b.val / 16),
      base64Char (b.val % 16 * 4), base64Pad]
  | [a] => [base64Char (a.val / 4), base64Char (a.val % 4 * 16), base64Pad, base64Pad]
  | [] => []

/-- Sextet of a character of the base64 alphabet. -/
def base64Value (c : Fin 256) : Nat :=
  if 65 ≤ c.val ∧ c.val ≤ 90 then c.val - 65
  else if 97 ≤ c.val ∧ c.val ≤ 122 then c.val - 71
  else if 48 ≤ c.val ∧ c.val ≤ 57 then c.val + 4
  else if c.val = 43 then 62
  else 63

/-- Decoder of padded base64 text, four characters at a time. -/
def fromBase64 : QByteArray → QByteArray
  | c1 :: c2 :: c3 :: c4 :: rest =>
    let b1 : Fin 256 := Fin.ofNat (base64Value c1 * 4 + base64Value c2 / 16)
    let b2 : Fin 256 := Fin.ofNat (base64Value c2 % 16 * 16 + base64Value c3 / 4)
    let b3 : Fin 256 := Fin.ofNat (base64Value c3 % 4 * 64 + base64Value c4)
    if c3 = base64Pad then [b1]
    else if c4 = base64Pad then [b1, b2]
    else b1 :: b2 :: b3 :: fromBase64 rest
  | _ => []

/-! ## The catalog -/

/-- One row of `m_formattersData`: the `QVariantMap` with the keys `name`,
`version`, `description`, `cmd`, `cmd_list` and `cwd` that the scan fills. -/
structure Formatter where
  name : String
  version : String
  description : String
  cmd : String
  cmd_list : List String
  cwd : String
  deriving DecidableEq, Repr

/-- The hash `m_mapping` from a formatter name to an index, as its key/value
pairs; a key occurs once. -/
abbrev QHash := List (String × Nat)

/-- The call `QHash::contains(key)`. -/
def QHash.contains (m : QHash) (key : String) : Bool :=
  (m.lookup key).isSome

/-- The assignment `hash[key] = value`: the value of an existing key is
replaced. -/
def QHash.insert (m : QHash) (key : String) (value : Nat) : QHash :=
  (key, value) :: m.filter (fun p => !(p.1 == key))

/-- The read `hash[key]` of a non-const hash: the stored value, or a
default-constructed value that is inserted first when the key is missing. -/
def QHash.index (m : QHash) (key : String) : Nat × QHash :=
  match m.lookup key with
  | some v => (v, m)
  | none => (0, m.insert key 0)

/-- The call `QHash::keys()`. -/
def QHash.keys (m : QHash) : List String :=
  m.map Prod.fst

/-- Data members of `FormattersManager`. -/
structure FormattersManager where
  m_formattersData : List Formatter
  m_mapping : QHash
  deriving DecidableEq, Repr

/-- The manager as constructed: nothing loaded. -/
def FormattersManager.empty : FormattersManager := ⟨[], []⟩

/-- State of the `usage.json` of a subdirectory: not there, there but not
opened for reading, or read. -/
inductive UsageFile where
  | absent
  | unreadable
  | content (bytes : QByteArray)
  deriving DecidableEq, Repr

/-- Subdirectory yielded by the `QDirIterator`: `it.fileName()`,
`it.filePath()` and the file `usage.json` in it. -/
structure DirEntry where
  fileName : String
  filePath : String
  usageFile : UsageFile
  deriving DecidableEq, Repr

/-! ## Member functions -/

/-- Member function `FormattersManager::readOutputFromExternalProcess`.  The result is `none`
when `cmd[0]` is read from an empty list. -/
def readOutputFromExternalProcess (env : Env) (cmd : List String)
    (processInput : QByteArray) (wd : String) :
    Option ((QByteArray × QByteArray) × List Event) :=
  match cmd with
  | [] => none
  | program :: arguments =>
    let started : List Event :=
      Event.start program arguments wd ::
        (if processInput.length ≠ 0 then [Event.write processInput, Event.closeWriteChannel]
         else [])
    match env.process (program :: arguments) wd processInput with
    | .startTimeout errorString =>
      some (([], []), started ++
        [Event.error ⟨"Cannot start process %1: %2", [" ".intercalate cmd, errorString]⟩])
    | .runTimeout errorString _ _ =>
      some (([], []), started ++
        [Event.kill,
         Event.error ⟨"Process %1 was killed by timeout: %2",
           [" ".intercalate cmd, errorString]⟩])
    | .finished out err _ => some ((out, err), started)

/-- Member function `FormattersManager::readJsonFromExternalProcess`. -/
def readJsonFromExternalProcess (env : Env) (cmd : List String)
    (processInput : QByteArray) (wd : String) : Option (QJsonObject × List Event) :=
  match readOutputFromExternalProcess env cmd processInput wd with
  | none => none
  | some (result, ev) =>
    let ev1 : List Event :=
      if result.2.length > 0 then
        ev ++ [Event.error ⟨"%2: %1", [env.qt.fromLocal8Bit result.2, wd]⟩]
      else ev
    if result.1.isEmpty then some ([], ev1)
    else
      match env.qt.fromJson result.1 with
      | some (.object members) => some (members, ev1)
      | _ =>
        some ([], ev1 ++
          [Event.error ⟨"Formatter returned invalid json: %1",
            [env.qt.fromLocal8Bit result.1]⟩])

/-- The loop of `FormattersManager::fillMapping`, from the entry at position
`index` on. -/
def fillMappingLoop : List Formatter → Nat → QHash → QHash
  | [], _, m => m
  | f :: fs, index, m => fillMappingLoop fs (index + 1) (m.insert f.name index)

/-- Member function `FormattersManager::fillMapping`. -/
def fillMapping (s : FormattersManager) : FormattersManager :=
  { s with m_mapping := fillMappingLoop s.m_formattersData 0 s.m_mapping }

/-- Body of the `while (it.hasNext())` loop of
`FormattersManager::loadFormatters` for the subdirectory `it`; `data` is
`m_formattersData`.  A `continue` ends the body. -/
def scanStep (env : Env) (it : DirEntry) (data : List Formatter) :
    Option (List Formatter × List Event) :=
  match it.usageFile with
  | .content bytes =>
    let usageRawJson := env.qt.simplified (env.qt.fromUtf8 bytes)
    match env.qt.fromJson (env.qt.toUtf8 usageRawJson) with
    | some (.array items) =>
      let fullCmd := items.map QJsonValue.variantToString
      let versionCmd := fullCmd ++ ["info"]
      match readJsonFromExternalProcess env versionCmd [] it.filePath with
      | none => none
      | some (outputObj, ev) =>
        if outputObj.isEmpty then
          some (data, ev ++
            [Event.error
              ⟨"Formatter %1 returned empty output for info command", [it.filePath]⟩])
        else
          let entry : Formatter :=
            { name := it.fileName
              version := (outputObj.value "version").toString
              description := (outputObj.value "description").toString
              cmd := " ".intercalate fullCmd
              cmd_list := fullCmd
              cwd := it.filePath }
          some (data ++ [entry], ev)
    | _ =>
      some (data, [Event.error ⟨"Formatter %1 has invalid usage.json file", [it.filePath]⟩])
  | _ => some (data, [])

/-- The `while (it.hasNext())` loop of `FormattersManager::loadFormatters`
over the subdirectories still to visit. -/
def scanLoop (env : Env) : List DirEntry → List Formatter →
    Option (List Formatter × List Event)
  | [], data => some (data, [])
  | it :: rest, data =>
    match scanStep env it data with
    | none => none
    | some (data1, ev) => (scanLoop env rest data1).map fun r => (r.1, ev ++ r.2)

/-- Member function `FormattersManager::loadFormatters`, on the subdirectories `tree` of the
formatters directory in iteration order. -/
def loadFormatters (env : Env) (tree : List DirEntry) (s : FormattersManager) :
    Option (FormattersManager × List Event) :=
  (scanLoop env tree s.m_formattersData).map fun r =>
    (fillMapping { s with m_formattersData := r.1 }, r.2)

/-- The lookup `m_formattersData[m_mapping[formatterName]]` shared by the value
operations: the manager after the read of the hash and the row found, `none`
when the index is out of range. -/
def formatterAt (s : FormattersManager) (formatterName : String) :
    Option (FormattersManager × Formatter) :=
  let r := s.m_mapping.index formatterName
  match s.m_formattersData[r.1]? with
  | none => none
  | some formatter => some ({ s with m_mapping := r.2 }, formatter)

/-- Member function `FormattersManager::decode`; `isCallable` is `jsCallback.isCallable()`. -/
def decode (env : Env) (s : FormattersManager) (formatterName : String)
    (data : QByteArray) (isCallable : Bool) : Option (FormattersManager × List Event) :=
  if !s.m_mapping.contains formatterName then
    some (s, [Event.error
      ⟨env.qt.translate "RDM" "Can't find formatter with name: %1", [formatterName]⟩])
  else if !isCallable then
    some (s, [Event.error ⟨env.qt.translate "RDM" "Invalid callback", []⟩])
  else
    match formatterAt s formatterName with
    | none => none
    | some (s1, formatter) =>
      let cmd := formatter.cmd_list ++ ["decode"]
      match readJsonFromExternalProcess env cmd (toBase64 data) formatter.cwd with
      | none => none
      | some (outputObj, ev) =>
        if outputObj.isEmpty then
          some (s1, ev ++ [Event.call [QJSValue.formatted
            ⟨env.qt.translate "RDM" "Cannot decode value using %1 formatter. ",
              [formatterName]⟩]])
        else
          some (s1, ev ++ [Event.call
            [QJSValue.string (outputObj.value "error").toString,
             QJSValue.string (outputObj.value "output").toString,
             QJSValue.bool (outputObj.value "read-only").toBool,
             QJSValue.string (outputObj.value "format").toString]])

/-- Member function `FormattersManager::isValid`. -/
def isValid (env : Env) (s : FormattersManager) (formatterName : String)
    (data : QByteArray) (isCallable : Bool) : Option (FormattersManager × List Event) :=
  if !s.m_mapping.contains formatterName then
    some (s, [Event.error
      ⟨env.qt.translate "RDM" "Can't find formatter with name: %1", [formatterName]⟩])
  else
    match formatterAt s formatterName with
    | none => none
    | some (s1, formatter) =>
      let cmd := formatter.cmd_list ++ ["validate"]
      match readJsonFromExternalProcess env cmd (toBase64 data) formatter.cwd with
      | none => none
      | some (outputObj, ev) =>
        if outputObj.isEmpty then
          some (s1, ev ++ [Event.error
            ⟨env.qt.translate "RDM" "Cannot validate value using %1 formatter.",
              [formatterName]⟩])
        else if isCallable then
          some (s1, ev ++ [Event.call [QJSValue.bool (outputObj.value "valid").toBool]])
        else some (s1, ev)

/-- Member function `FormattersManager::encode`. -/
def encode (env : Env) (s : FormattersManager) (formatterName : String)
    (data : QByteArray) (isCallable : Bool) : Option (FormattersManager × List Event) :=
  if !s.m_mapping.contains formatterName then
    some (s, [Event.error
      ⟨env.qt.translate "RDM" "Can't find formatter with name: %1", [formatterName]⟩])
  else
    match formatterAt s formatterName with
    | none => none
    | some (s1, formatter) =>
      let cmd := formatter.cmd_list ++ ["encode"]
      match readJsonFromExternalProcess env cmd (toBase64 data) formatter.cwd with
      | none => none
      | some (result, ev) =>
        if result.isEmpty then
          some (s1, ev ++ [Event.error
            ⟨env.qt.translate "RDM" "Cannot encode value using %1 formatter. ",
              [formatterName]⟩])
        else if isCallable then
          some (s1, ev ++ [Event.call [QJSValue.string (result.value "output").toString]])
        else some (s1, ev)

/-- Member function `FormattersManager::getPlainList`. -/
def getPlainList (s : FormattersManager) : List String :=
  s.m_mapping.keys

/-- Member function `FormattersManager::isInstalled`. -/
def isInstalled (s : FormattersManager) (name : String) : Bool :=
  s.m_mapping.contains name

/-- Member function `FormattersManager::rowCount`. -/
def rowCount (s : FormattersManager) : Nat :=
  s.m_formattersData.length

/-! ## Notions used by the statements -/

/-- Largest position of an entry with the given name, if there is one. -/
def lastIndex? (name : String) : List Formatter → Option Nat
  | [] => none
  | f :: fs =>
    match lastIndex? name fs with
    | some j => some (j + 1)
    | none => if f.name = name then some 0 else none

/-- Invocation prefix of a subdirectory whose `usage.json` was read and parses
to a JSON array. -/
def manifest? (env : Env) (d : DirEntry) : Option (List String) :=
  match d.usageFile with
  | .content bytes =>
    match env.qt.fromJson (env.qt.toUtf8 (env.qt.simplified (env.qt.fromUtf8 bytes))) with
    | some (.array items) => some (items.map QJsonValue.variantToString)
    | _ => none
  | _ => none

/-- Response of a successful `info` call of a plugin: a non-empty object. -/
def infoResponse? (env : Env) (d : DirEntry) (invocation : List String) :
    Option QJsonObject :=
  match readJsonFromExternalProcess env (invocation ++ ["info"]) [] d.filePath with
  | some (o, _) => if o.isEmpty then none else some o
  | none => none

/-- Catalog entry that a subdirectory is registered with: it has a valid
manifest and its `info` call succeeded. -/
def registeredEntry (env : Env) (d : DirEntry) : Option Formatter :=
  match manifest? env d with
  | none => none
  | some invocation =>
    match infoResponse? env d invocation with
    | none => none
    | some o =>
      some { name := d.fileName
             version := (o.value "version").toString
             description := (o.value "description").toString
             cmd := " ".intercalate invocation
             cmd_list := invocation
             cwd := d.filePath }

/-- States of the manager reachable from the constructed one by calls of
`loadFormatters`, each on some directory content and plugin behaviour. -/
inductive Reachable : FormattersManager → Prop
  | empty : Reachable FormattersManager.empty
  | load {s s1 : FormattersManager} (env : Env) (tree : List DirEntry) (ev : List Event) :
      Reachable s → loadFormatters env tree s = some (s1, ev) → Reachable s1

/-- The notifications on the `error` signal, in order. -/
def errors : List Event → List Message
  | [] => []
  | Event.error m :: ev => m :: errors ev
  | _ :: ev => errors ev

/-- The argument lists of the calls of the script callback, in order. -/
def calls : List Event → List (List QJSValue)
  | [] => []
  | Event.call args :: ev => args :: calls ev
  | _ :: ev => calls ev

/-- The commands run, in order: argv and working directory of every process
started. -/
def commands : List Event → List (List String × String)
  | [] => []
  | Event.start program arguments wd :: ev => (program :: arguments, wd) :: commands ev
  | _ :: ev => commands ev

/-- The bytes written to the standard input of the processes started. -/
def stdinPayload : List Event → QByteArray
  | [] => []
  | Event.write bytes :: ev => bytes ++ stdinPayload ev
  | _ :: ev => stdinPayload ev

/-- Object that a standard output stands for: the parsed object, or the empty
object when the output is empty, is not JSON or is not a JSON object. -/
def objectOfStdout (qt : Qt) (stdout : QByteArray) : QJsonObject :=
  if stdout.isEmpty then []
  else
    match qt.fromJson stdout with
    | some (.object members) => members
    | _ => []

/-- Error that a standard output gives rise to: none when it is empty or a JSON
object, else the message with its raw text. -/
def stdoutErrors (qt : Qt) (stdout : QByteArray) : List Message :=
  if stdout.isEmpty then []
  else
    match qt.fromJson stdout with
    | some (.object _) => []
    | _ => [⟨"Formatter returned invalid json: %1", [qt.fromLocal8Bit stdout]⟩]

/-- Diagnostic that a standard error gives rise to: none when it is empty. -/
def stderrErrors (qt : Qt) (stderr : QByteArray) (wd : String) : List Message :=
  if stderr.length > 0 then [⟨"%2: %1", [qt.fromLocal8Bit stderr, wd]⟩] else []

/-- The two byte strings that `readOutputFromExternalProcess` returns for an
outcome: the captured streams of a finished process, else two empty ones. -/
def ProcessOutcome.output : ProcessOutcome → QByteArray × QByteArray
  | .finished out err _ => (out, err)
  | _ => ([], [])

/-- Error that `readOutputFromExternalProcess` emits for an outcome of the
command `cmd`. -/
def processErrors (cmd : List String) : ProcessOutcome → List Message
  | .startTimeout e => [⟨"Cannot start process %1: %2", [" ".intercalate cmd, e]⟩]
  | .runTimeout e _ _ => [⟨"Process %1 was killed by timeout: %2", [" ".intercalate cmd, e]⟩]
  | .finished _ _ _ => []

/-- Number of error notifications that running the process and reading its
output give for an outcome: one for a process that did not start or did not
finish in time, one for a non-empty standard error, one for a non-empty
standard output that is not a JSON object. -/
def processErrorCount (qt : Qt) : ProcessOutcome → Nat
  | .startTimeout _ => 1
  | .runTimeout _ _ _ => 1
  | .finished out err _ =>
    (if err = [] then 0 else 1) +
      (if out = [] then 0
       else
        match qt.fromJson out with
        | some (.object _) => 0
        | _ => 1)

/-- The call of a plugin succeeded: the process finished and its standard
output parses to a non-empty JSON object. -/
def succeeded (qt : Qt) : ProcessOutcome → Bool
  | .finished out _ _ =>
    if out = [] then false
    else
      match qt.fromJson out with
      | some (.object (_ :: _)) => true
      | _ => false
  | _ => false

/-! ## A concrete world

One plugin directory `jsonpp` whose manifest is the array with the one
string `echo-info-stub`, a stub that answers `info` and `decode` with an
object, a directory whose manifest is an array with a number in it, a
directory whose manifest is an array of a string and a boolean, and a
directory whose manifest is an object.  File contents and process output
are short byte strings that the stub parser maps to their JSON value. -/

/-- Bytes of the manifest of `jsonpp`. -/
def stubUsage : QByteArray := [1]

/-- Bytes the stub prints for `info`. -/
def stubInfoOutput : QByteArray := [2]

/-- Bytes the stub prints for `decode`. -/
def stubDecodeOutput : QByteArray := [3]

/-- Bytes of a manifest that holds the number 7. -/
def numberUsage : QByteArray := [4]

/-- Bytes of a manifest that holds an object. -/
def objectUsage : QByteArray := [5]

/-- Bytes of a manifest that holds the string `echo-info-stub` and the
boolean `true`. -/
def mixedUsage : QByteArray := [6]

/-- Library functions of the concrete world. -/
def stubQt : Qt where
  fromJson := fun b =>
    if b = stubUsage then some (.array [.string "echo-info-stub"])
    else if b = stubInfoOutput then
      some (.object [("version", .string "1.0"), ("description", .string "pretty json")])
    else if b = stubDecodeOutput then
      some (.object [("output", .string "X"), ("read-only", .bool true),
        ("format", .string "json")])
    else if b = numberUsage then some (.array [.double "7"])
    else if b = objectUsage then some (.object [])
    else if b = mixedUsage then some (.array [.string "echo-info-stub", .bool true])
    else none
  fromLocal8Bit := fun b => String.mk (b.map fun x => Char.ofNat x.val)
  fromUtf8 := fun b => String.mk (b.map fun x => Char.ofNat x.val)
  toUtf8 := fun s => s.toList.map fun c => Fin.ofNat c.toNat
  simplified := fun s => s
  translate := fun _ source => source

/-- Processes of the concrete world: the stub answers `info` and `decode`,
also `info` after the argument `true`, the program `7` answers `info`, the
verb `validate` writes text that is not JSON, everything else does not
start. -/
def stubEnv : Env where
  qt := stubQt
  process := fun argv _ _ =>
    if argv = ["echo-info-stub", "info"] then .finished stubInfoOutput [] 0
    else if argv = ["echo-info-stub", "decode"] then .finished stubDecodeOutput [] 0
    else if argv = ["echo-info-stub", "validate"] then .finished [9] [] 0
    else if argv = ["7", "info"] then .finished stubInfoOutput [] 0
    else if argv = ["echo-info-stub", "true", "info"] then .finished stubInfoOutput [] 0
    else .startTimeout "No such file or directory"

/-- The plugin directory `jsonpp`. -/
def jsonppDir : DirEntry := ⟨"jsonpp", "/formatters/jsonpp", .content stubUsage⟩

/-- A directory whose manifest is the array `[7]`. -/
def numberDir : DirEntry := ⟨"num", "/formatters/num", .content numberUsage⟩

/-- A directory whose manifest is the array of the string `echo-info-stub`
and the boolean `true`. -/
def mixedDir : DirEntry := ⟨"mixed", "/formatters/mixed", .content mixedUsage⟩

/-- A directory whose manifest is an object. -/
def objectDir : DirEntry := ⟨"obj", "/formatters/obj", .content objectUsage⟩

/-- The catalog entry of `jsonpp`. -/
def jsonppEntry : Formatter :=
  { name := "jsonpp", version := "1.0", description := "pretty json",
    cmd := "echo-info-stub", cmd_list := ["echo-info-stub"], cwd := "/formatters/jsonpp" }

/-- The manager after one scan of the directory that holds `jsonpp`. -/
def jsonppLoaded : FormattersManager := ⟨[jsonppEntry], [("jsonpp", 0)]⟩

/-! ## The hash and `fillMapping` -/

theorem lookup_cons_ite (n a : String) (b : Nat) (m : QHash) :
    List.lookup n ((a, b) :: m) = if n = a then some b else List.lookup n m := by
  by_cases h : n = a
  · subst h; simp [List.lookup_cons]
  · have hb : (n == a) = false := by simpa using h
    simp [List.lookup_cons, hb, h]

theorem lookup_filter_ne (m : QHash) (k n : String) :
    List.lookup n (m.filter fun p => !(p.1 == k)) = if n = k then none else List.lookup n m := by
  induction m with
  | nil => simp
  | cons p m ih =>
    obtain ⟨a, b⟩ := p
    by_cases hak : a = k
    · subst hak
      have hf : List.filter (fun p : String × Nat => !(p.1 == a)) ((a, b) :: m)
          = List.filter (fun p : String × Nat => !(p.1 == a)) m := by
        simp [List.filter_cons]
      rw [hf, ih, lookup_cons_ite]
      by_cases hn : n = a <;> simp [hn]
    · have hf : List.filter (fun p : String × Nat => !(p.1 == k)) ((a, b) :: m)
          = (a, b) :: List.filter (fun p : String × Nat => !(p.1 == k)) m := by
        simp [List.filter_cons, hak]
      rw [hf, lookup_cons_ite, lookup_cons_ite, ih]
      by_cases hn : n = k
      · subst hn
        have : ¬ n = a := fun h => hak h.symm
        simp [this]
      · simp [hn]

theorem lookup_insert (m : QHash) (k : String) (v : Nat) (n : String) :
    List.lookup n (QHash.insert m k v) = if n = k then some v else List.lookup n m := by
  unfold QHash.insert
  rw [lookup_cons_ite, lookup_filter_ne]
  by_cases hn : n = k <;> simp [hn]

theorem lookup_fillMappingLoop (fs : List Formatter) (i : Nat) (m : QHash) (n : String) :
    List.lookup n (fillMappingLoop fs i m) =
      match lastIndex? n fs with
      | some j => some (i + j)
      | none => List.lookup n m := by
  induction fs generalizing i m with
  | nil => simp [fillMappingLoop, lastIndex?]
  | cons f fs ih =>
    simp only [fillMappingLoop, lastIndex?]
    rw [ih]
    cases h : lastIndex? n fs with
    | some j => simp only [Option.some.injEq]; omega
    | none =>
      by_cases hf : f.name = n
      · simp [hf, lookup_insert]
      · have hf2 : ¬ n = f.name := fun h => hf h.symm
        simp [hf, hf2, lookup_insert]

theorem lastIndex?_append (n : String) (xs ys : List Formatter) :
    lastIndex? n (xs ++ ys) =
      match lastIndex? n ys with
      | some j => some (xs.length + j)
      | none => lastIndex? n xs := by
  induction xs with
  | nil => cases h : lastIndex? n ys <;> simp [lastIndex?, h]
  | cons x xs ih =>
    show lastIndex? n (x :: (xs ++ ys)) = _
    simp only [lastIndex?]
    rw [ih]
    cases h : lastIndex? n ys with
    | some j => simp only [List.length_cons, Option.some.injEq]; omega
    | none => simp

theorem lastIndex?_eq_none (n : String) (fs : List Formatter) :
    lastIndex? n fs = none ↔ ∀ f ∈ fs, f.name ≠ n := by
  induction fs with
  | nil => simp [lastIndex?]
  | cons f fs ih =>
    simp only [lastIndex?]
    cases h : lastIndex? n fs with
    | some j =>
      have : ¬ ∀ g ∈ fs, g.name ≠ n := fun hall => by simp [ih.mpr hall] at h
      simp only [List.mem_cons, forall_eq_or_imp]
      constructor
      · intro h0; cases h0
      · intro h0; exact absurd h0.2 this
    | none =>
      have hall := ih.mp h
      by_cases hf : f.name = n
      · simp [hf]
      · simpa [hf] using hall

theorem lastIndex?_eq_some (n : String) (fs : List Formatter) (j : Nat)
    (h : lastIndex? n fs = some j) :
    (∃ f, fs[j]? = some f ∧ f.name = n) ∧
      ∀ i g, fs[i]? = some g → g.name = n → i ≤ j := by
  induction fs generalizing j with
  | nil => simp [lastIndex?] at h
  | cons f fs ih =>
    simp only [lastIndex?] at h
    cases h1 : lastIndex? n fs with
    | some k =>
      rw [h1] at h
      simp at h
      subst h
      obtain ⟨⟨g, hg, hgn⟩, hmax⟩ := ih k h1
      refine ⟨⟨g, by simpa using hg, hgn⟩, ?_⟩
      intro i g2 hi hn
      cases i with
      | zero => omega
      | succ i =>
        have := hmax i g2 (by simpa using hi) hn
        omega
    | none =>
      rw [h1] at h
      by_cases hf : f.name = n
      · simp [hf] at h
        subst h
        refine ⟨⟨f, by simp, hf⟩, ?_⟩
        intro i g hi hn
        cases i with
        | zero => omega
        | succ i =>
          have hmem : g ∈ fs := by
            have hi2 : fs[i]? = some g := by simpa using hi
            exact List.mem_iff_getElem?.mpr ⟨i, hi2⟩
          exact absurd hn ((lastIndex?_eq_none n fs).mp h1 g hmem)
      · simp [hf] at h

/-! ## Running a process -/

theorem readOutput_cons (env : Env) (program : String) (arguments : List String)
    (processInput : QByteArray) (wd : String) :
    ∃ r, readOutputFromExternalProcess env (program :: arguments) processInput wd = some r := by
  simp only [readOutputFromExternalProcess]
  split <;> exact ⟨_, rfl⟩

theorem readJson_cons (env : Env) (program : String) (arguments : List String)
    (processInput : QByteArray) (wd : String) :
    ∃ r, readJsonFromExternalProcess env (program :: arguments) processInput wd = some r := by
  obtain ⟨r, hr⟩ := readOutput_cons env program arguments processInput wd
  unfold readJsonFromExternalProcess
  rw [hr]
  simp only
  split
  · exact ⟨_, rfl⟩
  · split <;> exact ⟨_, rfl⟩

theorem readJson_verb (env : Env) (invocation : List String) (verb : String)
    (processInput : QByteArray) (wd : String) :
    ∃ r, readJsonFromExternalProcess env (invocation ++ [verb]) processInput wd = some r := by
  cases invocation with
  | nil => exact readJson_cons env verb [] processInput wd
  | cons p ps => exact readJson_cons env p (ps ++ [verb]) processInput wd

/-! ## The scan -/

theorem scanStep_data (env : Env) (d : DirEntry) (data : List Formatter) :
    ∃ ev, scanStep env d data = some (data ++ (registeredEntry env d).toList, ev) := by
  unfold scanStep registeredEntry manifest? infoResponse?
  cases hu : d.usageFile with
  | absent => exact ⟨[], by simp⟩
  | unreadable => exact ⟨[], by simp⟩
  | content bytes =>
    simp only
    cases hj : env.qt.fromJson (env.qt.toUtf8 (env.qt.simplified (env.qt.fromUtf8 bytes))) with
    | none => exact ⟨_, by simp; rfl⟩
    | some v =>
      cases v with
      | array items =>
        simp only
        obtain ⟨⟨o, ev⟩, hr⟩ := readJson_verb env (items.map QJsonValue.variantToString)
          "info" [] d.filePath
        rw [hr]
        simp only
        by_cases ho : o.isEmpty = true
        · exact ⟨_, by simp [ho]; rfl⟩
        · exact ⟨_, by simp [ho]; rfl⟩
      | _ => exact ⟨_, by simp; rfl⟩

theorem scanLoop_data (env : Env) (tree : List DirEntry) (data : List Formatter) :
    ∃ ev, scanLoop env tree data = some (data ++ tree.filterMap (registeredEntry env), ev) := by
  induction tree generalizing data with
  | nil => exact ⟨[], by simp [scanLoop]⟩
  | cons d rest ih =>
    obtain ⟨ev, hstep⟩ := scanStep_data env d data
    obtain ⟨ev2, hrest⟩ := ih (data ++ (registeredEntry env d).toList)
    refine ⟨ev ++ ev2, ?_⟩
    simp only [scanLoop, hstep, hrest, Option.map_some']
    cases hreg : registeredEntry env d <;> simp [List.filterMap_cons, hreg]

theorem scanLoop_append (env : Env) (xs ys : List DirEntry) (data : List Formatter) :
    scanLoop env (xs ++ ys) data =
      (scanLoop env xs data).bind fun r =>
        (scanLoop env ys r.1).map fun r2 => (r2.1, r.2 ++ r2.2) := by
  induction xs generalizing data with
  | nil =>
    simp only [List.nil_append, scanLoop, Option.some_bind, List.nil_append]
    cases scanLoop env ys data <;> simp
  | cons d rest ih =>
    simp only [List.cons_append, scanLoop]
    cases hstep : scanStep env d data with
    | none => simp
    | some r =>
      obtain ⟨data1, ev⟩ := r
      show Option.map _ (scanLoop env (rest ++ ys) data1) = _
      rw [ih]
      cases h1 : scanLoop env rest data1 with
      | none => simp [scanLoop, hstep, h1]
      | some r1 =>
        cases h2 : scanLoop env ys r1.1 <;> simp [scanLoop, hstep, h1, h2]

theorem loadFormatters_eq (env : Env) (tree : List DirEntry) (s : FormattersManager) :
    ∃ ev, loadFormatters env tree s =
      some (⟨s.m_formattersData ++ tree.filterMap (registeredEntry env),
        fillMappingLoop (s.m_formattersData ++ tree.filterMap (registeredEntry env)) 0
          s.m_mapping⟩, ev) := by
  obtain ⟨ev, h⟩ := scanLoop_data env tree s.m_formattersData
  exact ⟨ev, by simp [loadFormatters, h, fillMapping]⟩

/-- In a reachable state the hash holds, for every name, the largest position
of an entry with that name. -/
theorem reachable_lookup (s : FormattersManager) (h : Reachable s) (n : String) :
    List.lookup n s.m_mapping = lastIndex? n s.m_formattersData := by
  induction h with
  | empty => simp [FormattersManager.empty, lastIndex?]
  | @load s0 s1 env tree ev _ hload ih =>
    obtain ⟨ev2, heq⟩ := loadFormatters_eq env tree s0
    rw [heq] at hload
    simp only [Option.some.injEq, Prod.mk.injEq] at hload
    rw [← hload.1]
    simp only [lookup_fillMappingLoop]
    cases hl : lastIndex? n (s0.m_formattersData ++ List.filterMap (registeredEntry env) tree) with
    | some j => simp
    | none =>
      simp only
      rw [ih]
      rw [lastIndex?_append] at hl
      cases hx : lastIndex? n (List.filterMap (registeredEntry env) tree) with
      | some j => simp [hx] at hl
      | none => simpa [hx] using hl

/-! ## Reading the events -/

theorem errors_append (xs ys : List Event) : errors (xs ++ ys) = errors xs ++ errors ys := by
  induction xs with
  | nil => rfl
  | cons e xs ih => cases e <;> simp [errors, ih]

theorem calls_append (xs ys : List Event) : calls (xs ++ ys) = calls xs ++ calls ys := by
  induction xs with
  | nil => rfl
  | cons e xs ih => cases e <;> simp [calls, ih]

theorem commands_append (xs ys : List Event) :
    commands (xs ++ ys) = commands xs ++ commands ys := by
  induction xs with
  | nil => rfl
  | cons e xs ih => cases e <;> simp [commands, ih]

theorem stdinPayload_append (xs ys : List Event) :
    stdinPayload (xs ++ ys) = stdinPayload xs ++ stdinPayload ys := by
  induction xs with
  | nil => rfl
  | cons e xs ih => cases e <;> simp [stdinPayload, ih]

/-- Events of `readOutputFromExternalProcess` before it waits for the
process. -/
theorem readOutput_eq (env : Env) (program : String) (arguments : List String)
    (processInput : QByteArray) (wd : String) :
    readOutputFromExternalProcess env (program :: arguments) processInput wd =
      match env.process (program :: arguments) wd processInput with
      | .startTimeout errorString =>
        some (([], []),
          (Event.start program arguments wd ::
            (if processInput.length ≠ 0 then
              [Event.write processInput, Event.closeWriteChannel] else [])) ++
          [Event.error ⟨"Cannot start process %1: %2",
            [" ".intercalate (program :: arguments), errorString]⟩])
      | .runTimeout errorString _ _ =>
        some (([], []),
          (Event.start program arguments wd ::
            (if processInput.length ≠ 0 then
              [Event.write processInput, Event.closeWriteChannel] else [])) ++
          [Event.kill, Event.error ⟨"Process %1 was killed by timeout: %2",
            [" ".intercalate (program :: arguments), errorString]⟩])
      | .finished out err _ =>
        some ((out, err),
          Event.start program arguments wd ::
            (if processInput.length ≠ 0 then
              [Event.write processInput, Event.closeWriteChannel] else [])) := by
  rfl

theorem started_facts (program : String) (arguments : List String) (processInput : QByteArray)
    (wd : String) :
    errors (Event.start program arguments wd ::
      (if processInput.length ≠ 0 then
        [Event.write processInput, Event.closeWriteChannel] else [])) = [] ∧
    calls (Event.start program arguments wd ::
      (if processInput.length ≠ 0 then
        [Event.write processInput, Event.closeWriteChannel] else [])) = [] ∧
    commands (Event.start program arguments wd ::
      (if processInput.length ≠ 0 then
        [Event.write processInput, Event.closeWriteChannel] else [])) = [(program :: arguments, wd)] ∧
    stdinPayload (Event.start program arguments wd ::
      (if processInput.length ≠ 0 then
        [Event.write processInput, Event.closeWriteChannel] else [])) = processInput ∧
    Event.kill ∉ (Event.start program arguments wd ::
      (if processInput.length ≠ 0 then
        [Event.write processInput, Event.closeWriteChannel] else [])) := by
  cases processInput with
  | nil => simp [errors, calls, commands, stdinPayload]
  | cons b bs => simp [errors, calls, commands, stdinPayload]

theorem errors_map_error (ms : List Message) : errors (ms.map Event.error) = ms := by
  induction ms with
  | nil => rfl
  | cons m ms ih => simp [errors, ih]

theorem calls_map_error (ms : List Message) : calls (ms.map Event.error) = [] := by
  induction ms with
  | nil => rfl
  | cons m ms ih => simp [calls, ih]

theorem commands_map_error (ms : List Message) : commands (ms.map Event.error) = [] := by
  induction ms with
  | nil => rfl
  | cons m ms ih => simp [commands, ih]

theorem stdinPayload_map_error (ms : List Message) :
    stdinPayload (ms.map Event.error) = [] := by
  induction ms with
  | nil => rfl
  | cons m ms ih => simp [stdinPayload, ih]

/-- The function `readJsonFromExternalProcess` in terms of what
`readOutputFromExternalProcess` returned. -/
theorem readJson_of_output (env : Env) (cmd : List String) (processInput : QByteArray)
    (wd : String) (result : QByteArray × QByteArray) (ev : List Event)
    (h : readOutputFromExternalProcess env cmd processInput wd = some (result, ev)) :
    readJsonFromExternalProcess env cmd processInput wd =
      some (objectOfStdout env.qt result.1,
        ev ++ (stderrErrors env.qt result.2 wd).map Event.error ++
          (stdoutErrors env.qt result.1).map Event.error) := by
  unfold readJsonFromExternalProcess objectOfStdout stdoutErrors stderrErrors
  rw [h]
  dsimp only
  by_cases h2 : result.2.length > 0
  · by_cases h1 : result.1.isEmpty = true
    · simp [h1, h2]
    · simp only [h1, h2, if_true, if_false]
      cases hj : env.qt.fromJson result.1 with
      | none => simp
      | some v => cases v <;> simp
  · by_cases h1 : result.1.isEmpty = true
    · simp [h1, h2]
    · simp only [h1, h2, if_true, if_false]
      cases hj : env.qt.fromJson result.1 with
      | none => simp
      | some v => cases v <;> simp

/-- What `readOutputFromExternalProcess` does on a non-empty command. -/
theorem readOutput_spec (env : Env) (cmd : List String) (processInput : QByteArray)
    (wd : String) (hc : cmd ≠ []) :
    ∃ ev, readOutputFromExternalProcess env cmd processInput wd =
        some ((env.process cmd wd processInput).output, ev) ∧
      commands ev = [(cmd, wd)] ∧ stdinPayload ev = processInput ∧ calls ev = [] ∧
      errors ev = processErrors cmd (env.process cmd wd processInput) := by
  cases cmd with
  | nil => exact absurd rfl hc
  | cons program arguments =>
    obtain ⟨h1, h2, h3, h4, _⟩ := started_facts program arguments processInput wd
    rw [readOutput_eq]
    cases hp : env.process (program :: arguments) wd processInput with
    | startTimeout e =>
      refine ⟨_, rfl, ?_, ?_, ?_, ?_⟩
      · rw [commands_append, h3]; rfl
      · rw [stdinPayload_append, h4]; simp [stdinPayload]
      · rw [calls_append, h2]; rfl
      · rw [errors_append, h1]; rfl
    | runTimeout e out err =>
      refine ⟨_, rfl, ?_, ?_, ?_, ?_⟩
      · rw [commands_append, h3]; rfl
      · rw [stdinPayload_append, h4]; simp [stdinPayload]
      · rw [calls_append, h2]; rfl
      · rw [errors_append, h1]; rfl
    | finished out err code => exact ⟨_, rfl, h3, h4, h2, h1⟩

/-- What `readJsonFromExternalProcess` does on a non-empty command. -/
theorem readJson_spec (env : Env) (cmd : List String) (processInput : QByteArray)
    (wd : String) (hc : cmd ≠ []) :
    ∃ ev, readJsonFromExternalProcess env cmd processInput wd =
        some (objectOfStdout env.qt (env.process cmd wd processInput).output.1, ev) ∧
      commands ev = [(cmd, wd)] ∧ stdinPayload ev = processInput ∧ calls ev = [] ∧
      errors ev = processErrors cmd (env.process cmd wd processInput) ++
        stderrErrors env.qt (env.process cmd wd processInput).output.2 wd ++
        stdoutErrors env.qt (env.process cmd wd processInput).output.1 := by
  obtain ⟨ev, h, h1, h2, h3, h4⟩ := readOutput_spec env cmd processInput wd hc
  refine ⟨_, readJson_of_output env cmd processInput wd _ ev h, ?_, ?_, ?_, ?_⟩
  · simp [commands_append, commands_map_error, h1]
  · simp [stdinPayload_append, stdinPayload_map_error, h2]
  · simp [calls_append, calls_map_error, h3]
  · simp [errors_append, errors_map_error, h4]

theorem verb_ne_nil (invocation : List String) (verb : String) : invocation ++ [verb] ≠ [] := by
  simp

/-- What `decode` does for a name in the hash and a callable callback. -/
theorem decode_spec (env : Env) (s s1 : FormattersManager) (name : String) (data : QByteArray)
    (f : Formatter) (hn : s.m_mapping.contains name = true)
    (hf : formatterAt s name = some (s1, f)) :
    ∃ ev, decode env s name data true = some (s1, ev) ∧
      commands ev = [(f.cmd_list ++ ["decode"], f.cwd)] ∧
      stdinPayload ev = toBase64 data ∧
      errors ev =
        processErrors (f.cmd_list ++ ["decode"])
          (env.process (f.cmd_list ++ ["decode"]) f.cwd (toBase64 data)) ++
        stderrErrors env.qt
          (env.process (f.cmd_list ++ ["decode"]) f.cwd (toBase64 data)).output.2 f.cwd ++
        stdoutErrors env.qt
          (env.process (f.cmd_list ++ ["decode"]) f.cwd (toBase64 data)).output.1 ∧
      calls ev =
        [if (objectOfStdout env.qt
            (env.process (f.cmd_list ++ ["decode"]) f.cwd (toBase64 data)).output.1).isEmpty
         then [QJSValue.formatted
           ⟨env.qt.translate "RDM" "Cannot decode value using %1 formatter. ", [name]⟩]
         else
          [QJSValue.string ((objectOfStdout env.qt
            (env.process (f.cmd_list ++ ["decode"]) f.cwd (toBase64 data)).output.1).value
              "error").toString,
           QJSValue.string ((objectOfStdout env.qt
            (env.process (f.cmd_list ++ ["decode"]) f.cwd (toBase64 data)).output.1).value
              "output").toString,
           QJSValue.bool ((objectOfStdout env.qt
            (env.process (f.cmd_list ++ ["decode"]) f.cwd (toBase64 data)).output.1).value
              "read-only").toBool,
           QJSValue.string ((objectOfStdout env.qt
            (env.process (f.cmd_list ++ ["decode"]) f.cwd (toBase64 data)).output.1).value
              "format").toString]] := by
  obtain ⟨ev, h, h1, h2, h3, h4⟩ :=
    readJson_spec env (f.cmd_list ++ ["decode"]) (toBase64 data) f.cwd (verb_ne_nil _ _)
  unfold decode
  simp only [hn, hf, h, Bool.not_true, Bool.false_eq_true, if_false]
  split
  · rename_i he
    refine ⟨_, rfl, ?_, ?_, ?_, ?_⟩
    · simp [commands_append, h1, commands]
    · simp [stdinPayload_append, h2, stdinPayload]
    · simp [errors_append, h4, errors]
    · simp [calls_append, h3, calls, he]
  · rename_i he
    refine ⟨_, rfl, ?_, ?_, ?_, ?_⟩
    · simp [commands_append, h1, commands]
    · simp [stdinPayload_append, h2, stdinPayload]
    · simp [errors_append, h4, errors]
    · simp [calls_append, h3, calls, he]

/-- What `encode` does for a name in the hash. -/
theorem encode_spec (env : Env) (s s1 : FormattersManager) (name : String) (data : QByteArray)
    (isCallable : Bool) (f : Formatter) (hn : s.m_mapping.contains name = true)
    (hf : formatterAt s name = some (s1, f)) :
    ∃ ev, encode env s name data isCallable = some (s1, ev) ∧
      commands ev = [(f.cmd_list ++ ["encode"], f.cwd)] ∧
      stdinPayload ev = toBase64 data ∧
      errors ev =
        processErrors (f.cmd_list ++ ["encode"])
          (env.process (f.cmd_list ++ ["encode"]) f.cwd (toBase64 data)) ++
        stderrErrors env.qt
          (env.process (f.cmd_list ++ ["encode"]) f.cwd (toBase64 data)).output.2 f.cwd ++
        stdoutErrors env.qt
          (env.process (f.cmd_list ++ ["encode"]) f.cwd (toBase64 data)).output.1 ++
        (if (objectOfStdout env.qt
            (env.process (f.cmd_list ++ ["encode"]) f.cwd (toBase64 data)).output.1).isEmpty
         then [⟨env.qt.translate "RDM" "Cannot encode value using %1 formatter. ", [name]⟩]
         else []) ∧
      calls ev =
        if (objectOfStdout env.qt
            (env.process (f.cmd_list ++ ["encode"]) f.cwd (toBase64 data)).output.1).isEmpty
        then []
        else if isCallable then
          [[QJSValue.string ((objectOfStdout env.qt
            (env.process (f.cmd_list ++ ["encode"]) f.cwd (toBase64 data)).output.1).value
              "output").toString]]
        else [] := by
  obtain ⟨ev, h, h1, h2, h3, h4⟩ :=
    readJson_spec env (f.cmd_list ++ ["encode"]) (toBase64 data) f.cwd (verb_ne_nil _ _)
  unfold encode
  simp only [hn, hf, h, Bool.not_true, Bool.false_eq_true, if_false]
  split
  · rename_i he
    refine ⟨_, rfl, ?_, ?_, ?_, ?_⟩
    · simp [commands_append, h1, commands]
    · simp [stdinPayload_append, h2, stdinPayload]
    · simp [errors_append, h4, errors, he]
    · simp [calls_append, h3, calls, he]
  · rename_i he
    cases isCallable with
    | true =>
      refine ⟨_, rfl, ?_, ?_, ?_, ?_⟩
      · simp [commands_append, h1, commands]
      · simp [stdinPayload_append, h2, stdinPayload]
      · simp [errors_append, h4, errors, he]
      · simp [calls_append, h3, calls, he]
    | false =>
      refine ⟨_, rfl, ?_, ?_, ?_, ?_⟩
      · simp [h1]
      · simp [h2]
      · simp [h4, he]
      · simp [h3, he]

/-- What `isValid` does for a name in the hash. -/
theorem isValid_spec (env : Env) (s s1 : FormattersManager) (name : String) (data : QByteArray)
    (isCallable : Bool) (f : Formatter) (hn : s.m_mapping.contains name = true)
    (hf : formatterAt s name = some (s1, f)) :
    ∃ ev, isValid env s name data isCallable = some (s1, ev) ∧
      commands ev = [(f.cmd_list ++ ["validate"], f.cwd)] ∧
      stdinPayload ev = toBase64 data ∧
      errors ev =
        processErrors (f.cmd_list ++ ["validate"])
          (env.process (f.cmd_list ++ ["validate"]) f.cwd (toBase64 data)) ++
        stderrErrors env.qt
          (env.process (f.cmd_list ++ ["validate"]) f.cwd (toBase64 data)).output.2 f.cwd ++
        stdoutErrors env.qt
          (env.process (f.cmd_list ++ ["validate"]) f.cwd (toBase64 data)).output.1 ++
        (if (objectOfStdout env.qt
            (env.process (f.cmd_list ++ ["validate"]) f.cwd (toBase64 data)).output.1).isEmpty
         then [⟨env.qt.translate "RDM" "Cannot validate value using %1 formatter.", [name]⟩]
         else []) ∧
      calls ev =
        if (objectOfStdout env.qt
            (env.process (f.cmd_list ++ ["validate"]) f.cwd (toBase64 data)).output.1).isEmpty
        then []
        else if isCallable then
          [[QJSValue.bool ((objectOfStdout env.qt
            (env.process (f.cmd_list ++ ["validate"]) f.cwd (toBase64 data)).output.1).value
              "valid").toBool]]
        else [] := by
  obtain ⟨ev, h, h1, h2, h3, h4⟩ :=
    readJson_spec env (f.cmd_list ++ ["validate"]) (toBase64 data) f.cwd (verb_ne_nil _ _)
  unfold isValid
  simp only [hn, hf, h, Bool.not_true, Bool.false_eq_true, if_false]
  split
  · rename_i he
    refine ⟨_, rfl, ?_, ?_, ?_, ?_⟩
    · simp [commands_append, h1, commands]
    · simp [stdinPayload_append, h2, stdinPayload]
    · simp [errors_append, h4, errors, he]
    · simp [calls_append, h3, calls, he]
  · rename_i he
    cases isCallable with
    | true =>
      refine ⟨_, rfl, ?_, ?_, ?_, ?_⟩
      · simp [commands_append, h1, commands]
      · simp [stdinPayload_append, h2, stdinPayload]
      · simp [errors_append, h4, errors, he]
      · simp [calls_append, h3, calls, he]
    | false =>
      refine ⟨_, rfl, ?_, ?_, ?_, ?_⟩
      · simp [h1]
      · simp [h2]
      · simp [h4, he]
      · simp [h3, he]

theorem processErrorCount_eq (qt : Qt) (cmd : List String) (wd : String) (o : ProcessOutcome) :
    (processErrors cmd o ++ stderrErrors qt o.output.2 wd ++ stdoutErrors qt o.output.1).length
      = processErrorCount qt o := by
  cases o with
  | startTimeout e => rfl
  | runTimeout e out err => rfl
  | finished out err code =>
    simp only [processErrors, ProcessOutcome.output, processErrorCount, List.nil_append,
      List.length_append]
    have h1 : (stderrErrors qt err wd).length = if err = [] then 0 else 1 := by
      cases err <;> simp [stderrErrors]
    have h2 : (stdoutErrors qt out).length =
        if out = [] then 0
        else
          match qt.fromJson out with
          | some (.object _) => 0
          | _ => 1 := by
      cases out with
      | nil => simp [stdoutErrors]
      | cons b bs =>
        simp only [stdoutErrors, List.isEmpty_cons, Bool.false_eq_true, if_false,
          reduceCtorEq]
        cases qt.fromJson (b :: bs) with
        | none => rfl
        | some v => cases v <;> rfl
    rw [h1, h2]

theorem succeeded_eq (qt : Qt) (o : ProcessOutcome) :
    (objectOfStdout qt o.output.1).isEmpty = !succeeded qt o := by
  cases o with
  | startTimeout e => rfl
  | runTimeout e out err => rfl
  | finished out err code =>
    cases out with
    | nil => rfl
    | cons b bs =>
      simp only [ProcessOutcome.output, objectOfStdout, succeeded, List.isEmpty_cons,
        Bool.false_eq_true, if_false, reduceCtorEq]
      cases qt.fromJson (b :: bs) with
      | none => rfl
      | some v =>
        cases v with
        | object members => cases members <;> rfl
        | _ => rfl

theorem unknown_name_events (env : Env) (s : FormattersManager) (name : String)
    (data : QByteArray) (isCallable : Bool) (h : s.m_mapping.contains name = false) :
    decode env s name data isCallable =
      some (s, [Event.error
        ⟨env.qt.translate "RDM" "Can't find formatter with name: %1", [name]⟩]) ∧
    encode env s name data isCallable =
      some (s, [Event.error
        ⟨env.qt.translate "RDM" "Can't find formatter with name: %1", [name]⟩]) ∧
    isValid env s name data isCallable =
      some (s, [Event.error
        ⟨env.qt.translate "RDM" "Can't find formatter with name: %1", [name]⟩]) := by
  refine ⟨?_, ?_, ?_⟩
  · simp [decode, h]
  · simp [encode, h]
  · simp [isValid, h]

/-! ## Base64 -/

theorem base64_alphabet :
    ∀ i : Fin 64, base64Value (base64Char i.val) = i.val ∧ base64Char i.val ≠ base64Pad := by
  decide

theorem base64Value_char (i : Nat) (h : i < 64) : base64Value (base64Char i) = i :=
  (base64_alphabet ⟨i, h⟩).1

theorem base64Char_ne_pad (i : Nat) (h : i < 64) : base64Char i ≠ base64Pad :=
  (base64_alphabet ⟨i, h⟩).2

theorem byte_ofNat (a : Fin 256) (x : Nat) (h : x = a.val) : (Fin.ofNat x : Fin 256) = a := by
  subst h
  apply Fin.ext
  show a.val % 256 = a.val
  exact Nat.mod_eq_of_lt a.isLt

theorem fromBase64_toBase64 (data : QByteArray) : fromBase64 (toBase64 data) = data := by
  induction data using toBase64.induct with
  | case1 a b c rest ih =>
    have ha := a.isLt
    have hb := b.isLt
    have hc := c.isLt
    have s1 : a.val / 4 < 64 := by omega
    have s2 : a.val % 4 * 16 + b.val / 16 < 64 := by omega
    have s3 : b.val % 16 * 4 + c.val / 64 < 64 := by omega
    have s4 : c.val % 64 < 64 := by omega
    simp only [toBase64, fromBase64, base64Value_char _ s1, base64Value_char _ s2,
      base64Value_char _ s3, base64Value_char _ s4, base64Char_ne_pad _ s3,
      base64Char_ne_pad _ s4, if_false, ih]
    rw [byte_ofNat a _ (by omega), byte_ofNat b _ (by omega), byte_ofNat c _ (by omega)]
  | case2 a b =>
    have ha := a.isLt
    have hb := b.isLt
    have s1 : a.val / 4 < 64 := by omega
    have s2 : a.val % 4 * 16 + b.val / 16 < 64 := by omega
    have s3 : b.val % 16 * 4 < 64 := by omega
    simp only [toBase64, fromBase64, base64Value_char _ s1, base64Value_char _ s2,
      base64Value_char _ s3, base64Char_ne_pad _ s3, if_false, if_true]
    rw [byte_ofNat a _ (by omega), byte_ofNat b _ (by omega)]
  | case3 a =>
    have ha := a.isLt
    have s1 : a.val / 4 < 64 := by omega
    have s2 : a.val % 4 * 16 < 64 := by omega
    simp only [toBase64, fromBase64, base64Value_char _ s1, base64Value_char _ s2, if_true]
    rw [byte_ofNat a _ (by omega)]
  | case4 => rfl

/-! ## Commands of the scan -/

theorem scanStep_commands (env : Env) (d : DirEntry) (data : List Formatter) :
    ∃ data1 ev, scanStep env d data = some (data1, ev) ∧
      commands ev = ((manifest? env d).map fun invocation =>
        (invocation ++ ["info"], d.filePath)).toList ∧
      stdinPayload ev = [] := by
  unfold scanStep manifest?
  cases hu : d.usageFile with
  | absent => exact ⟨data, [], rfl, rfl, rfl⟩
  | unreadable => exact ⟨data, [], rfl, rfl, rfl⟩
  | content bytes =>
    dsimp only
    cases hj : env.qt.fromJson (env.qt.toUtf8 (env.qt.simplified (env.qt.fromUtf8 bytes))) with
    | none => exact ⟨data, _, rfl, rfl, rfl⟩
    | some v =>
      cases v with
      | array items =>
        obtain ⟨ev, h, h1, h2, _, _⟩ := readJson_spec env
          (items.map QJsonValue.variantToString ++ ["info"]) [] d.filePath (verb_ne_nil _ _)
        dsimp only
        rw [h]
        dsimp only
        split
        · refine ⟨_, _, rfl, ?_, ?_⟩
          · simp [commands_append, h1, commands]
          · simp [stdinPayload_append, h2, stdinPayload]
        · exact ⟨_, _, rfl, by simp [h1], h2⟩
      | _ => exact ⟨data, _, rfl, rfl, rfl⟩

theorem scanLoop_commands (env : Env) (tree : List DirEntry) (data : List Formatter) :
    ∃ data1 ev, scanLoop env tree data = some (data1, ev) ∧
      commands ev = tree.filterMap (fun d => (manifest? env d).map fun invocation =>
        (invocation ++ ["info"], d.filePath)) ∧
      stdinPayload ev = [] := by
  induction tree generalizing data with
  | nil => exact ⟨data, [], rfl, rfl, rfl⟩
  | cons d rest ih =>
    obtain ⟨data1, ev, h, h1, h2⟩ := scanStep_commands env d data
    obtain ⟨data2, ev2, h3, h4, h5⟩ := ih data1
    refine ⟨data2, ev ++ ev2, ?_, ?_, ?_⟩
    · simp [scanLoop, h, h3]
    · rw [commands_append, h1, h4]
      cases hm : manifest? env d <;> simp [List.filterMap_cons, hm]
    · rw [stdinPayload_append, h2, h5]
      rfl

/-! ## Claims on the catalog -/

theorem contains_iff_lookup (m : QHash) (n : String) :
    m.contains n = true ↔ ∃ j, List.lookup n m = some j := by
  unfold QHash.contains
  cases List.lookup n m <;> simp

theorem contains_iff_mem_keys (m : QHash) (n : String) :
    m.contains n = true ↔ n ∈ m.keys := by
  induction m with
  | nil => simp [QHash.contains, QHash.keys]
  | cons p m ih =>
    obtain ⟨a, b⟩ := p
    have hc : QHash.contains ((a, b) :: m) n = if n = a then true else QHash.contains m n := by
      unfold QHash.contains
      rw [lookup_cons_ite]
      by_cases h : n = a <;> simp [h]
    rw [hc]
    by_cases h : n = a
    · simp [h, QHash.keys]
    · simp only [h, if_false, ih]
      simp [QHash.keys, h]

theorem index_of_lookup (m : QHash) (n : String) (j : Nat) (h : List.lookup n m = some j) :
    m.index n = (j, m) := by
  simp [QHash.index, h]

theorem lastIndex?_exists (n : String) (fs : List Formatter) :
    (∃ j, lastIndex? n fs = some j) ↔ ∃ f ∈ fs, f.name = n := by
  constructor
  · rintro ⟨j, hj⟩
    obtain ⟨⟨f, hf, hn⟩, _⟩ := lastIndex?_eq_some n fs j hj
    exact ⟨f, List.mem_iff_getElem?.mpr ⟨j, hf⟩, hn⟩
  · rintro ⟨f, hf, hn⟩
    cases h : lastIndex? n fs with
    | some j => exact ⟨j, rfl⟩
    | none => exact absurd hn ((lastIndex?_eq_none n fs).mp h f hf)

/-- C2: in every state reachable from the constructed manager by calls of
`loadFormatters`, a name is a key of `m_mapping` exactly when some entry of
`m_formattersData` has that name; then `m_mapping[name]` is an index below the
length of the sequence, the entry there has that name and is the one the
lookup of the value operations returns, and no entry with that name stands at
a larger index.  A string that is the name of no entry is not found. -/
theorem mapping_consistent (s : FormattersManager) (h : Reachable s) (n : String) :
    (s.m_mapping.contains n = true ↔ ∃ f ∈ s.m_formattersData, f.name = n) ∧
    (s.m_mapping.contains n = true →
      (s.m_mapping.index n).1 < s.m_formattersData.length ∧
      (∃ f, s.m_formattersData[(s.m_mapping.index n).1]? = some f ∧ f.name = n ∧
        formatterAt s n = some (s, f)) ∧
      ∀ i g, s.m_formattersData[i]? = some g → g.name = n → i ≤ (s.m_mapping.index n).1) ∧
    ((∀ f ∈ s.m_formattersData, f.name ≠ n) →
      isInstalled s n = false ∧ n ∉ getPlainList s) := by
  have hl := reachable_lookup s h n
  refine ⟨?_, ?_, ?_⟩
  · rw [contains_iff_lookup, hl]
    exact lastIndex?_exists n s.m_formattersData
  · intro hc
    obtain ⟨j, hj⟩ := (contains_iff_lookup _ _).mp hc
    have hidx := index_of_lookup _ _ _ hj
    rw [hl] at hj
    obtain ⟨⟨f, hf, hn⟩, hmax⟩ := lastIndex?_eq_some n _ j hj
    rw [hidx]
    refine ⟨?_, ⟨f, hf, hn, ?_⟩, hmax⟩
    · exact (List.getElem?_eq_some_iff.mp hf).1
    · simp [formatterAt, hidx, hf]
  · intro hall
    have hnone : List.lookup n s.m_mapping = none := by
      rw [hl]; exact (lastIndex?_eq_none n _).mpr hall
    have hc : s.m_mapping.contains n = false := by simp [QHash.contains, hnone]
    refine ⟨hc, ?_⟩
    intro hmem
    rw [getPlainList, ← contains_iff_mem_keys, hc] at hmem
    cases hmem

/-- Witness of `mapping_consistent`: the manager after two scans of the
directory that holds `jsonpp`. -/
theorem mapping_consistent_witness :
    Reachable ⟨[jsonppEntry, jsonppEntry], [("jsonpp", 1)]⟩ ∧
    (QHash.index [("jsonpp", 1)] "jsonpp").1 < 2 ∧
    isInstalled ⟨[jsonppEntry, jsonppEntry], [("jsonpp", 1)]⟩ "Jsonpp" = false :=
  have h1 : Reachable jsonppLoaded :=
    @Reachable.load FormattersManager.empty jsonppLoaded stubEnv [jsonppDir]
      [Event.start "echo-info-stub" ["info"] "/formatters/jsonpp"] Reachable.empty (by decide)
  have hr : Reachable ⟨[jsonppEntry, jsonppEntry], [("jsonpp", 1)]⟩ :=
    Reachable.load stubEnv [jsonppDir]
      [Event.start "echo-info-stub" ["info"] "/formatters/jsonpp"] h1 (by decide)
  ⟨hr, ((mapping_consistent _ hr "jsonpp").2.1 (by decide)).1,
    ((mapping_consistent _ hr "Jsonpp").2.2 (by decide)).1⟩

/-- C1, as the code has it: a call of `loadFormatters` does not replace the
prior state, it appends the entries the scan registers.  After two calls in a
row on the same directory content and plugin behaviour the entry sequence is
the one after the first call followed by the scanned entries once more; the
keys of `m_mapping` are those after the first call, and every scanned name is
mapped to its index after the first call plus the number of scanned
entries. -/
theorem loadFormatters_twice (env : Env) (tree : List DirEntry) (s : FormattersManager) :
    ∃ s1 ev1 s2 ev2,
      loadFormatters env tree s = some (s1, ev1) ∧
      loadFormatters env tree s1 = some (s2, ev2) ∧
      s1.m_formattersData = s.m_formattersData ++ tree.filterMap (registeredEntry env) ∧
      s2.m_formattersData = s1.m_formattersData ++ tree.filterMap (registeredEntry env) ∧
      (∀ n, s2.m_mapping.contains n = s1.m_mapping.contains n) ∧
      (∀ n, (∃ f ∈ tree.filterMap (registeredEntry env), f.name = n) →
        (s2.m_mapping.index n).1 =
          (s1.m_mapping.index n).1 + (tree.filterMap (registeredEntry env)).length) := by
  obtain ⟨ev1, h1⟩ := loadFormatters_eq env tree s
  obtain ⟨ev2, h2⟩ := loadFormatters_eq env tree
    ⟨s.m_formattersData ++ tree.filterMap (registeredEntry env),
      fillMappingLoop (s.m_formattersData ++ tree.filterMap (registeredEntry env)) 0 s.m_mapping⟩
  refine ⟨_, ev1, _, ev2, h1, h2, rfl, rfl, ?_, ?_⟩
  · intro n
    simp only [QHash.contains, lookup_fillMappingLoop]
    generalize hnew : tree.filterMap (registeredEntry env) = new
    rw [lastIndex?_append n (s.m_formattersData ++ new) new]
    cases hx : lastIndex? n new with
    | some j => simp [lastIndex?_append, hx]
    | none =>
      simp only
      cases hy : lastIndex? n (s.m_formattersData ++ new) with
      | some j => simp
      | none => simp [hy]
  · intro n hn
    generalize hnew : tree.filterMap (registeredEntry env) = new at hn ⊢
    obtain ⟨j, hj⟩ := (lastIndex?_exists n new).mpr hn
    have e1 : List.lookup n (fillMappingLoop (s.m_formattersData ++ new) 0 s.m_mapping)
        = some (s.m_formattersData.length + j) := by
      rw [lookup_fillMappingLoop, lastIndex?_append, hj]; simp
    have e2 : List.lookup n (fillMappingLoop (s.m_formattersData ++ new ++ new) 0
        (fillMappingLoop (s.m_formattersData ++ new) 0 s.m_mapping))
        = some (s.m_formattersData.length + new.length + j) := by
      rw [lookup_fillMappingLoop, lastIndex?_append, hj]; simp
    rw [index_of_lookup _ _ _ e1, index_of_lookup _ _ _ e2]
    simp only
    omega

/-- C1 fails as stated: one scan of the directory that holds `jsonpp`
leaves one entry, a second scan of the same directory leaves two, and the
index of the name moves from 0 to 1. -/
theorem loadFormatters_twice_counterexample :
    (loadFormatters stubEnv [jsonppDir] FormattersManager.empty).map (fun r => r.1)
      = some ⟨[jsonppEntry], [("jsonpp", 0)]⟩ ∧
    (loadFormatters stubEnv [jsonppDir] ⟨[jsonppEntry], [("jsonpp", 0)]⟩).map (fun r => r.1)
      = some ⟨[jsonppEntry, jsonppEntry], [("jsonpp", 1)]⟩ := by
  decide

/-! ## Claims on the scan -/

theorem loadFormatters_state (env : Env) (tree : List DirEntry) (s : FormattersManager) :
    (loadFormatters env tree s).map (fun r => r.1) =
      some ⟨s.m_formattersData ++ tree.filterMap (registeredEntry env),
        fillMappingLoop (s.m_formattersData ++ tree.filterMap (registeredEntry env)) 0
          s.m_mapping⟩ := by
  obtain ⟨ev, h⟩ := loadFormatters_eq env tree s
  rw [h]
  rfl

theorem map_variantToString_string (xs : List String) :
    List.map QJsonValue.variantToString (List.map QJsonValue.string xs) = xs := by
  induction xs with
  | nil => rfl
  | cons x xs ih => simp only [List.map_cons, QJsonValue.variantToString, ih]

/-- C3, as the code has it: one call of `loadFormatters` on the constructed
manager leaves as entry sequence, in directory-iteration order, one entry
for every subdirectory whose `usage.json` was read and parses to a JSON
array, of elements of any kind, and whose `info` call returned a non-empty
object, and no entry for any other subdirectory: none when `usage.json` is
absent, was not opened or does not parse to an array, and none when the
`info` call gave the empty object.  The invocation is the array with every
element converted to a string; for an array of strings it is these
strings.  The entry has the subdirectory name as `name` and the `version`
and `description` strings of the response, the empty string when the field
is missing.  A subdirectory that is not registered does not change the
catalog the others give. -/
theorem loadFormatters_entries (env : Env) (tree : List DirEntry) :
    (∃ s1 ev, loadFormatters env tree FormattersManager.empty = some (s1, ev) ∧
      s1.m_formattersData = tree.filterMap (registeredEntry env)) ∧
    (∀ d f, registeredEntry env d = some f ↔
      ∃ invocation o, manifest? env d = some invocation ∧
        infoResponse? env d invocation = some o ∧
        f = { name := d.fileName
              version := (o.value "version").toString
              description := (o.value "description").toString
              cmd := " ".intercalate invocation
              cmd_list := invocation
              cwd := d.filePath }) ∧
    (∀ d bytes (strings : List String), d.usageFile = UsageFile.content bytes →
      env.qt.fromJson (env.qt.toUtf8 (env.qt.simplified (env.qt.fromUtf8 bytes)))
        = some (QJsonValue.array (strings.map QJsonValue.string)) →
      manifest? env d = some strings) ∧
    (∀ d bytes (items : List QJsonValue), d.usageFile = UsageFile.content bytes →
      env.qt.fromJson (env.qt.toUtf8 (env.qt.simplified (env.qt.fromUtf8 bytes)))
        = some (QJsonValue.array items) →
      manifest? env d = some (items.map QJsonValue.variantToString)) ∧
    (∀ d, d.usageFile = UsageFile.absent ∨ d.usageFile = UsageFile.unreadable →
      registeredEntry env d = none) ∧
    (∀ d bytes, d.usageFile = UsageFile.content bytes →
      (∀ items, env.qt.fromJson (env.qt.toUtf8 (env.qt.simplified (env.qt.fromUtf8 bytes)))
        ≠ some (QJsonValue.array items)) → registeredEntry env d = none) ∧
    (∀ d invocation, manifest? env d = some invocation →
      (∀ o ev, readJsonFromExternalProcess env (invocation ++ ["info"]) [] d.filePath
        = some (o, ev) → o = []) → registeredEntry env d = none) ∧
    (∀ (o : QJsonObject) (key : String), o.lookup key = none → (o.value key).toString = "") ∧
    (∀ (o : QJsonObject) (key text : String),
      o.lookup key = some (QJsonValue.string text) → (o.value key).toString = text) ∧
    (∀ pre d post, registeredEntry env d = none →
      (loadFormatters env (pre ++ d :: post) FormattersManager.empty).map (fun r => r.1) =
        (loadFormatters env (pre ++ post) FormattersManager.empty).map (fun r => r.1)) := by
  refine ⟨?_, ?_, ?_, ?_, ?_, ?_, ?_, ?_, ?_, ?_⟩
  · obtain ⟨ev, h⟩ := loadFormatters_eq env tree FormattersManager.empty
    exact ⟨_, ev, h, by simp [FormattersManager.empty]⟩
  · intro d f
    unfold registeredEntry
    cases hm : manifest? env d with
    | none => simp
    | some invocation =>
      cases hi : infoResponse? env d invocation with
      | none => simp [hi]
      | some o =>
        simp only [Option.some.injEq, hi]
        constructor
        · intro h; exact ⟨invocation, o, rfl, hi, h.symm⟩
        · rintro ⟨i2, o2, h1, h2, h3⟩
          subst h1
          rw [hi] at h2
          simp only [Option.some.injEq] at h2
          subst h2
          exact h3.symm
  · intro d bytes strings hd hj
    simp only [manifest?, hd, hj, map_variantToString_string]
  · intro d bytes items hd hj
    simp only [manifest?, hd, hj]
  · intro d hd
    rcases hd with hd | hd <;> simp [registeredEntry, manifest?, hd]
  · intro d bytes hd hbad
    have : manifest? env d = none := by
      unfold manifest?
      rw [hd]
      dsimp only
      cases hj : env.qt.fromJson (env.qt.toUtf8 (env.qt.simplified (env.qt.fromUtf8 bytes))) with
      | none => rfl
      | some v =>
        cases v with
        | array items => exact absurd hj (hbad items)
        | _ => rfl
    simp [registeredEntry, this]
  · intro d invocation hm hempty
    have : infoResponse? env d invocation = none := by
      unfold infoResponse?
      split
      · rename_i o ev hr
        have := hempty o ev hr
        subst this
        rfl
      · rfl
    simp [registeredEntry, hm, this]
  · intro o key h
    simp [QJsonObject.value, h, QJsonValue.toString]
  · intro o key text h
    simp [QJsonObject.value, h, QJsonValue.toString]
  · intro pre d post hd
    rw [loadFormatters_state, loadFormatters_state]
    simp [List.filterMap_append, List.filterMap_cons, hd]

/-- C3 fails as stated: the manifest of `mixed` is the array of the string
`echo-info-stub` and the boolean `true`, not an array of strings, so it is
an invalid manifest in the words of the specification.  The scan does not
leave zero entries for it: the boolean becomes the string `true`, the
command `echo-info-stub true info` is run, and `mixed` is registered before
`jsonpp`. -/
theorem loadFormatters_entries_counterexample :
    stubEnv.qt.fromJson
        (stubEnv.qt.toUtf8 (stubEnv.qt.simplified (stubEnv.qt.fromUtf8 mixedUsage)))
      = some (QJsonValue.array [QJsonValue.string "echo-info-stub", QJsonValue.bool true]) ∧
    loadFormatters stubEnv [mixedDir, jsonppDir] FormattersManager.empty =
      some (⟨[{ name := "mixed", version := "1.0", description := "pretty json",
                cmd := "echo-info-stub true", cmd_list := ["echo-info-stub", "true"],
                cwd := "/formatters/mixed" },
              jsonppEntry],
             [("jsonpp", 1), ("mixed", 0)]⟩,
        [Event.start "echo-info-stub" ["true", "info"] "/formatters/mixed",
         Event.start "echo-info-stub" ["info"] "/formatters/jsonpp"]) :=
  ⟨rfl, by decide⟩

/-- C9, as the code has it: a subdirectory whose `usage.json` was read and
does not parse to a JSON array (invalid JSON, or a top-level value that is
not an array) is skipped with the one error `Formatter %1 has invalid
usage.json file`: its loop body starts no process and adds no entry, and the
scan gives the catalog and the events of the scan without that subdirectory,
with this one error at its place.  A manifest that parses to an array, of
elements of any kind, is not skipped: the elements are converted to strings
and the command they form with `info` is run. -/
theorem invalid_usage_skipped (env : Env) (pre post : List DirEntry) (d : DirEntry)
    (bytes : QByteArray) (s : FormattersManager)
    (hu : d.usageFile = UsageFile.content bytes)
    (hbad : ∀ items, env.qt.fromJson (env.qt.toUtf8 (env.qt.simplified (env.qt.fromUtf8 bytes)))
      ≠ some (QJsonValue.array items)) :
    (∀ data, scanStep env d data =
      some (data, [Event.error ⟨"Formatter %1 has invalid usage.json file", [d.filePath]⟩])) ∧
    (∃ s1 ev1 ev2,
      loadFormatters env (pre ++ d :: post) s =
        some (s1, ev1 ++
          Event.error ⟨"Formatter %1 has invalid usage.json file", [d.filePath]⟩ :: ev2) ∧
      loadFormatters env (pre ++ post) s = some (s1, ev1 ++ ev2)) ∧
    (∀ (d2 : DirEntry) (bytes2 : QByteArray) (items : List QJsonValue) (data : List Formatter),
      d2.usageFile = UsageFile.content bytes2 →
      env.qt.fromJson (env.qt.toUtf8 (env.qt.simplified (env.qt.fromUtf8 bytes2)))
        = some (QJsonValue.array items) →
      ∃ data1 ev, scanStep env d2 data = some (data1, ev) ∧
        commands ev = [(items.map QJsonValue.variantToString ++ ["info"], d2.filePath)]) := by
  have hstep : ∀ data, scanStep env d data =
      some (data, [Event.error ⟨"Formatter %1 has invalid usage.json file", [d.filePath]⟩]) := by
    intro data
    unfold scanStep
    rw [hu]
    dsimp only
    cases hj : env.qt.fromJson (env.qt.toUtf8 (env.qt.simplified (env.qt.fromUtf8 bytes))) with
    | none => rfl
    | some v =>
      cases v with
      | array items => exact absurd hj (hbad items)
      | _ => rfl
  refine ⟨hstep, ?_, ?_⟩
  case refine_2 =>
    intro d2 bytes2 items data hu2 hj2
    obtain ⟨data1, ev, h, h1, _⟩ := scanStep_commands env d2 data
    refine ⟨data1, ev, h, ?_⟩
    rw [h1]
    simp [manifest?, hu2, hj2]
  obtain ⟨ev1, h1⟩ := scanLoop_data env pre s.m_formattersData
  obtain ⟨ev2, h2⟩ := scanLoop_data env post
    (s.m_formattersData ++ pre.filterMap (registeredEntry env))
  refine ⟨fillMapping ⟨s.m_formattersData ++ pre.filterMap (registeredEntry env) ++
    post.filterMap (registeredEntry env), s.m_mapping⟩, ev1, ev2, ?_, ?_⟩
  · simp only [loadFormatters, scanLoop_append, h1, Option.some_bind, scanLoop, hstep, h2,
      Option.map_some']
    simp
  · simp only [loadFormatters, scanLoop_append, h1, Option.some_bind, h2, Option.map_some']

/-- Witness of `invalid_usage_skipped`: a directory whose manifest is a JSON
object, visited after `jsonpp`. -/
theorem invalid_usage_skipped_witness :
    loadFormatters stubEnv ([jsonppDir] ++ objectDir :: []) FormattersManager.empty =
      some (jsonppLoaded,
        [Event.start "echo-info-stub" ["info"] "/formatters/jsonpp",
         Event.error ⟨"Formatter %1 has invalid usage.json file", ["/formatters/obj"]⟩]) ∧
    scanStep stubEnv objectDir [] =
      some ([], [Event.error ⟨"Formatter %1 has invalid usage.json file", ["/formatters/obj"]⟩]) :=
  ⟨by decide,
    (invalid_usage_skipped stubEnv [jsonppDir] [] objectDir objectUsage FormattersManager.empty
      rfl (fun items h => by
        have e : stubEnv.qt.fromJson
            (stubEnv.qt.toUtf8 (stubEnv.qt.simplified (stubEnv.qt.fromUtf8 objectUsage)))
            = some (QJsonValue.object []) := rfl
        rw [e] at h
        cases h)).1 []⟩

/-- C9 fails as stated: a manifest that is the array `[7]`, with a number
for an element, is not skipped.  Its element is turned into the string `7`,
the command `7 info` is run and the directory is registered. -/
theorem invalid_usage_counterexample :
    loadFormatters stubEnv [numberDir] FormattersManager.empty =
      some (⟨[{ name := "num", version := "1.0", description := "pretty json",
                cmd := "7", cmd_list := ["7"], cwd := "/formatters/num" }],
             [("num", 0)]⟩,
        [Event.start "7" ["info"] "/formatters/num"]) := by
  decide

/-! ## Claims on running a process -/

/-- C10: `readOutputFromExternalProcess` on a non-empty command returns, for
a process that started and finished in time, the captured standard output
and standard error unchanged with no error and no kill, whatever the exit
code.  When the process does not start in time it returns two empty byte
strings with the one error `Cannot start process`.  When the process does
not finish in time it kills the process and returns two empty byte strings,
not the output written so far, with the one error `was killed by timeout`.
No error is emitted exactly when the process finished in time. -/
theorem readOutput_outcomes (env : Env) (program : String) (arguments : List String)
    (processInput : QByteArray) (wd : String) :
    ∃ result ev,
      readOutputFromExternalProcess env (program :: arguments) processInput wd
        = some (result, ev) ∧
      (∀ out err code,
        env.process (program :: arguments) wd processInput = ProcessOutcome.finished out err code →
          result = (out, err) ∧ errors ev = [] ∧ Event.kill ∉ ev) ∧
      (∀ e, env.process (program :: arguments) wd processInput = ProcessOutcome.startTimeout e →
          result = ([], []) ∧ Event.kill ∉ ev ∧
          errors ev = [⟨"Cannot start process %1: %2",
            [" ".intercalate (program :: arguments), e]⟩]) ∧
      (∀ e out err,
        env.process (program :: arguments) wd processInput = ProcessOutcome.runTimeout e out err →
          result = ([], []) ∧ Event.kill ∈ ev ∧
          errors ev = [⟨"Process %1 was killed by timeout: %2",
            [" ".intercalate (program :: arguments), e]⟩]) ∧
      (errors ev = [] ↔ ∃ out err code,
        env.process (program :: arguments) wd processInput
          = ProcessOutcome.finished out err code) := by
  obtain ⟨h1, _, _, _, h5⟩ := started_facts program arguments processInput wd
  rw [readOutput_eq]
  cases hp : env.process (program :: arguments) wd processInput with
  | startTimeout e =>
    refine ⟨_, _, rfl, ?_, ?_, ?_, ?_⟩
    · intro out err code h; cases h
    · intro e2 h
      cases h
      refine ⟨rfl, ?_, ?_⟩
      · intro hk
        rcases List.mem_append.mp hk with hk | hk
        · exact h5 hk
        · simp at hk
      · rw [errors_append, h1]; rfl
    · intro e2 out err h; cases h
    · rw [errors_append, h1]
      simp [errors]
  | runTimeout e out err =>
    refine ⟨_, _, rfl, ?_, ?_, ?_, ?_⟩
    · intro out err code h; cases h
    · intro e2 h; cases h
    · intro e2 out2 err2 h
      cases h
      refine ⟨rfl, ?_, ?_⟩
      · exact List.mem_append.mpr (Or.inr (by simp))
      · rw [errors_append, h1]; rfl
    · rw [errors_append, h1]
      simp [errors]
  | finished out err code =>
    refine ⟨_, _, rfl, ?_, ?_, ?_, ?_⟩
    · intro out2 err2 code2 h
      cases h
      exact ⟨rfl, h1, h5⟩
    · intro e2 h; cases h
    · intro e2 out2 err2 h; cases h
    · exact ⟨fun _ => ⟨out, err, code, rfl⟩, fun _ => h1⟩

/-- C6: the object that `readJsonFromExternalProcess` returns depends on the
standard output alone.  It is the empty object when the output is empty; it
is the empty object, with the error `Formatter returned invalid json: %1`
whose argument is the raw output text, when the output is not empty and
does not parse to a JSON object; else it is the parsed object as it is.  A
non-empty standard error adds one notification and nothing else: two runs
with the same standard output return the same object. -/
theorem readJson_stdout (env : Env) (program : String) (arguments : List String)
    (processInput : QByteArray) (wd : String) :
    ∃ result ev obj ev2,
      readOutputFromExternalProcess env (program :: arguments) processInput wd
        = some (result, ev) ∧
      readJsonFromExternalProcess env (program :: arguments) processInput wd
        = some (obj, ev2) ∧
      (result.1 = [] → obj = [] ∧ errors ev2 = errors ev ++ stderrErrors env.qt result.2 wd) ∧
      (result.1 ≠ [] → (∀ members, env.qt.fromJson result.1 ≠ some (QJsonValue.object members)) →
        obj = [] ∧
        errors ev2 = errors ev ++ stderrErrors env.qt result.2 wd ++
          [⟨"Formatter returned invalid json: %1", [env.qt.fromLocal8Bit result.1]⟩]) ∧
      (∀ members, result.1 ≠ [] → env.qt.fromJson result.1 = some (QJsonValue.object members) →
        obj = members ∧ errors ev2 = errors ev ++ stderrErrors env.qt result.2 wd) ∧
      (result.2 = [] → stderrErrors env.qt result.2 wd = []) ∧
      (result.2 ≠ [] →
        stderrErrors env.qt result.2 wd = [⟨"%2: %1", [env.qt.fromLocal8Bit result.2, wd]⟩]) ∧
      (∀ (env2 : Env) (cmd2 : List String) (input2 : QByteArray) (wd2 : String)
          (result2 : QByteArray × QByteArray) (ev3 : List Event),
        env2.qt = env.qt →
        readOutputFromExternalProcess env2 cmd2 input2 wd2 = some (result2, ev3) →
        result2.1 = result.1 →
        (readJsonFromExternalProcess env2 cmd2 input2 wd2).map (fun r => r.1) = some obj) := by
  obtain ⟨⟨result, ev⟩, hout⟩ := readOutput_cons env program arguments processInput wd
  have hjson := readJson_of_output env _ processInput wd result ev hout
  refine ⟨result, ev, _, _, hout, hjson, ?_, ?_, ?_, ?_, ?_, ?_⟩
  · intro h1
    simp [objectOfStdout, stdoutErrors, h1, errors_append, errors_map_error]
  · intro h1 hbad
    have hne : result.1.isEmpty = false := by
      cases hr : result.1 with
      | nil => exact absurd hr h1
      | cons b bs => rfl
    have hobj : objectOfStdout env.qt result.1 = [] := by
      unfold objectOfStdout
      rw [hne]
      cases hj : env.qt.fromJson result.1 with
      | none => rfl
      | some v =>
        cases v with
        | object members => exact absurd hj (hbad members)
        | _ => rfl
    have herr : stdoutErrors env.qt result.1 =
        [⟨"Formatter returned invalid json: %1", [env.qt.fromLocal8Bit result.1]⟩] := by
      unfold stdoutErrors
      rw [hne]
      cases hj : env.qt.fromJson result.1 with
      | none => rfl
      | some v =>
        cases v with
        | object members => exact absurd hj (hbad members)
        | _ => rfl
    exact ⟨hobj, by rw [errors_append, errors_append, errors_map_error, errors_map_error, herr]⟩
  · intro members h1 hj
    have hne : result.1.isEmpty = false := by
      cases hr : result.1 with
      | nil => exact absurd hr h1
      | cons b bs => rfl
    constructor
    · simp [objectOfStdout, hne, hj]
    · simp [stdoutErrors, hne, hj, errors_append, errors_map_error]
  · intro h2
    simp [stderrErrors, h2]
  · intro h2
    have : result.2.length > 0 := List.length_pos.mpr h2
    simp [stderrErrors, this]
  · intro env2 cmd2 input2 wd2 result2 ev3 hqt hout2 hsame
    rw [readJson_of_output env2 _ input2 wd2 result2 ev3 hout2, hqt, hsame]
    rfl

/-- C7: for a name that is not a key of `m_mapping`, each of `decode`,
`encode` and `isValid` returns with the manager unchanged and with the one
event that is the error `Can't find formatter with name: %1` for that name:
no process is started and the callback is not called.  `isInstalled`
is true exactly for the keys of `m_mapping`. -/
theorem unknown_formatter (env : Env) (s : FormattersManager) (name : String)
    (data : QByteArray) (isCallable : Bool) (h : s.m_mapping.contains name = false) :
    decode env s name data isCallable =
      some (s, [Event.error
        ⟨env.qt.translate "RDM" "Can't find formatter with name: %1", [name]⟩]) ∧
    encode env s name data isCallable =
      some (s, [Event.error
        ⟨env.qt.translate "RDM" "Can't find formatter with name: %1", [name]⟩]) ∧
    isValid env s name data isCallable =
      some (s, [Event.error
        ⟨env.qt.translate "RDM" "Can't find formatter with name: %1", [name]⟩]) ∧
    commands [Event.error
      ⟨env.qt.translate "RDM" "Can't find formatter with name: %1", [name]⟩] = [] ∧
    calls [Event.error
      ⟨env.qt.translate "RDM" "Can't find formatter with name: %1", [name]⟩] = [] ∧
    isInstalled s name = false ∧
    ∀ n, isInstalled s n = true ↔ n ∈ s.m_mapping.keys := by
  refine ⟨?_, ?_, ?_, rfl, rfl, h, ?_⟩
  · simp [decode, h]
  · simp [encode, h]
  · simp [isValid, h]
  · intro n
    exact contains_iff_mem_keys s.m_mapping n

/-- Witness of `unknown_formatter`: the name `missing` in the manager that
holds `jsonpp`. -/
theorem unknown_formatter_witness :
    decode stubEnv jsonppLoaded "missing" [104, 105] true =
      some (jsonppLoaded, [Event.error ⟨"Can't find formatter with name: %1", ["missing"]⟩]) ∧
    isInstalled jsonppLoaded "missing" = false ∧
    isInstalled jsonppLoaded "jsonpp" = true :=
  ⟨(unknown_formatter stubEnv jsonppLoaded "missing" [104, 105] true (by decide)).1,
    by decide, by decide⟩

/-! ## Claims on the value operations -/

theorem reachable_formatterAt (s : FormattersManager) (hr : Reachable s) (name : String)
    (hn : s.m_mapping.contains name = true) :
    ∃ f, formatterAt s name = some (s, f) ∧ f.name = name ∧ f ∈ s.m_formattersData := by
  obtain ⟨j, hj⟩ := (contains_iff_lookup _ _).mp hn
  have hidx := index_of_lookup _ _ _ hj
  rw [reachable_lookup s hr name] at hj
  obtain ⟨⟨f, hf, hfn⟩, _⟩ := lastIndex?_eq_some name _ j hj
  exact ⟨f, by simp [formatterAt, hidx, hf], hfn, List.mem_iff_getElem?.mpr ⟨j, hf⟩⟩

theorem objectOfStdout_object (qt : Qt) (out : QByteArray) (members : QJsonObject)
    (hout : out ≠ []) (hj : qt.fromJson out = some (QJsonValue.object members)) :
    objectOfStdout qt out = members ∧ stdoutErrors qt out = [] := by
  cases out with
  | nil => exact absurd rfl hout
  | cons b bs => simp [objectOfStdout, stdoutErrors, hj]

/-- C5: in a reachable state, for a name in the catalog, any data and a
callable callback, `decode` finds the entry of that name, and when the
process of that entry finishes with a standard output that parses to a
non-empty JSON object, it calls the callback exactly once, with the four
values `error`, `output`, `read-only`, `format` of the object in this order;
a missing field is delivered as the empty string, a missing `read-only` as
false.  For the object with `output` = `X`, `read-only` = true and
`format` = `json` the call has the arguments `""`, `"X"`, true, `"json"`. -/
theorem decode_delivers (env : Env) (s : FormattersManager) (name : String)
    (data : QByteArray) (hr : Reachable s) (hn : s.m_mapping.contains name = true) :
    ∃ f, formatterAt s name = some (s, f) ∧ f.name = name ∧
      ∀ (out err : QByteArray) (code : Int) (members : QJsonObject),
        env.process (f.cmd_list ++ ["decode"]) f.cwd (toBase64 data)
          = ProcessOutcome.finished out err code →
        out ≠ [] → env.qt.fromJson out = some (QJsonValue.object members) → members ≠ [] →
        ∃ ev, decode env s name data true = some (s, ev) ∧
          calls ev =
            [[QJSValue.string (members.value "error").toString,
              QJSValue.string (members.value "output").toString,
              QJSValue.bool (members.value "read-only").toBool,
              QJSValue.string (members.value "format").toString]] ∧
          (∀ key, members.lookup key = none →
            (members.value key).toString = "" ∧ (members.value key).toBool = false) ∧
          (members = [("output", QJsonValue.string "X"), ("read-only", QJsonValue.bool true),
              ("format", QJsonValue.string "json")] →
            calls ev = [[QJSValue.string "", QJSValue.string "X", QJSValue.bool true,
              QJSValue.string "json"]]) := by
  obtain ⟨f, hf, hfn, _⟩ := reachable_formatterAt s hr name hn
  refine ⟨f, hf, hfn, ?_⟩
  intro out err code members hp hout hj hm
  obtain ⟨ev, hd, _, _, _, hcalls⟩ := decode_spec env s s name data f hn hf
  rw [hp] at hcalls
  simp only [ProcessOutcome.output, (objectOfStdout_object env.qt out members hout hj).1] at hcalls
  have hne : members.isEmpty = false := by
    cases members with
    | nil => exact absurd rfl hm
    | cons a b => rfl
  simp only [hne, Bool.false_eq_true, if_false] at hcalls
  refine ⟨ev, hd, hcalls, ?_, ?_⟩
  · intro key hk
    simp [QJsonObject.value, hk, QJsonValue.toString, QJsonValue.toBool]
  · intro hmem
    rw [hcalls, hmem]
    rfl

/-- Witness of `decode_delivers`: the stub of `jsonpp` answers `decode`
with the object of the scenario. -/
theorem decode_delivers_witness :
    Reachable jsonppLoaded ∧
    decode stubEnv jsonppLoaded "jsonpp" [104, 105] true =
      some (jsonppLoaded,
        [Event.start "echo-info-stub" ["decode"] "/formatters/jsonpp",
         Event.write [97, 71, 107, 61],
         Event.closeWriteChannel,
         Event.call [QJSValue.string "", QJSValue.string "X", QJSValue.bool true,
           QJSValue.string "json"]]) ∧
    ∃ f, formatterAt jsonppLoaded "jsonpp" = some (jsonppLoaded, f) ∧ f.name = "jsonpp" :=
  have h1 : Reachable jsonppLoaded :=
    @Reachable.load FormattersManager.empty jsonppLoaded stubEnv [jsonppDir]
      [Event.start "echo-info-stub" ["info"] "/formatters/jsonpp"] Reachable.empty (by decide)
  ⟨h1, by decide,
    (decode_delivers stubEnv jsonppLoaded "jsonpp" [104, 105] h1 (by decide)).imp
      fun _ h => ⟨h.1, h.2.1⟩⟩

/-- C8: every command the manager runs is the invocation of the plugin
followed by one verb.  A scan runs, for every subdirectory with a valid
manifest, the manifest followed by `info` in the directory of the plugin
and writes nothing to standard input; the entry it registers keeps the
manifest as `cmd_list` and the directory as `cwd`.  In a reachable state and
for a name in the catalog, `decode`, `isValid` and `encode` run one command
each, the `cmd_list` of the entry followed by `decode`, `validate` and
`encode`, in the `cwd` of the entry, and what they write to standard input
is the base64 text of the data, from which the data is decoded back.  The
command is never empty, also for an empty manifest, so that reading
`cmd[0]` is defined. -/
theorem commands_run (env : Env) (s : FormattersManager) (tree : List DirEntry)
    (name : String) (data : QByteArray) (isCallable : Bool) :
    (∃ s1 ev, loadFormatters env tree s = some (s1, ev) ∧
      commands ev = tree.filterMap (fun d => (manifest? env d).map fun invocation =>
        (invocation ++ ["info"], d.filePath)) ∧
      stdinPayload ev = []) ∧
    (∀ d f, registeredEntry env d = some f →
      manifest? env d = some f.cmd_list ∧ f.cwd = d.filePath) ∧
    (Reachable s → s.m_mapping.contains name = true →
      ∃ f, formatterAt s name = some (s, f) ∧ f.name = name ∧
        (∃ ev, decode env s name data true = some (s, ev) ∧
          commands ev = [(f.cmd_list ++ ["decode"], f.cwd)] ∧
          stdinPayload ev = toBase64 data) ∧
        (∃ ev, isValid env s name data isCallable = some (s, ev) ∧
          commands ev = [(f.cmd_list ++ ["validate"], f.cwd)] ∧
          stdinPayload ev = toBase64 data) ∧
        (∃ ev, encode env s name data isCallable = some (s, ev) ∧
          commands ev = [(f.cmd_list ++ ["encode"], f.cwd)] ∧
          stdinPayload ev = toBase64 data)) ∧
    fromBase64 (toBase64 data) = data ∧
    (∀ (invocation : List String) (verb : String) (processInput : QByteArray) (wd : String),
      invocation ++ [verb] ≠ [] ∧
      ∃ ev, readOutputFromExternalProcess env (invocation ++ [verb]) processInput wd =
          some ((env.process (invocation ++ [verb]) wd processInput).output, ev) ∧
        commands ev = [(invocation ++ [verb], wd)]) ∧
    (∀ (processInput : QByteArray) (wd : String),
      ∃ ev, readOutputFromExternalProcess env ([] ++ ["info"]) processInput wd =
          some ((env.process ["info"] wd processInput).output, ev) ∧
        commands ev = [(["info"], wd)]) := by
  refine ⟨?_, ?_, ?_, fromBase64_toBase64 data, ?_, ?_⟩
  · obtain ⟨data1, ev, h, h1, h2⟩ := scanLoop_commands env tree s.m_formattersData
    exact ⟨fillMapping ⟨data1, s.m_mapping⟩, ev, by simp [loadFormatters, h], h1, h2⟩
  · intro d f hreg
    unfold registeredEntry at hreg
    cases hm : manifest? env d with
    | none => simp [hm] at hreg
    | some invocation =>
      cases hi : infoResponse? env d invocation with
      | none => simp [hm, hi] at hreg
      | some o =>
        simp only [hm, hi, Option.some.injEq] at hreg
        subst hreg
        exact ⟨rfl, rfl⟩
  · intro hr hn
    obtain ⟨f, hf, hfn, _⟩ := reachable_formatterAt s hr name hn
    obtain ⟨ev1, hd, hd1, hd2, _, _⟩ := decode_spec env s s name data f hn hf
    obtain ⟨ev2, hv, hv1, hv2, _, _⟩ := isValid_spec env s s name data isCallable f hn hf
    obtain ⟨ev3, he, he1, he2, _, _⟩ := encode_spec env s s name data isCallable f hn hf
    exact ⟨f, hf, hfn, ⟨ev1, hd, hd1, hd2⟩, ⟨ev2, hv, hv1, hv2⟩, ⟨ev3, he, he1, he2⟩⟩
  · intro invocation verb processInput wd
    obtain ⟨ev, h, h1, _, _, _⟩ :=
      readOutput_spec env (invocation ++ [verb]) processInput wd (verb_ne_nil _ _)
    exact ⟨verb_ne_nil _ _, ev, h, h1⟩
  · intro processInput wd
    obtain ⟨ev, h, h1, _, _, _⟩ :=
      readOutput_spec env ([] ++ ["info"]) processInput wd (verb_ne_nil _ _)
    exact ⟨ev, h, h1⟩

/-- Witness of `commands_run`: the commands for `jsonpp`, with the data
`hi` written as `aGk=`. -/
theorem commands_run_witness :
    Reachable jsonppLoaded ∧
    (∃ f, formatterAt jsonppLoaded "jsonpp" = some (jsonppLoaded, f) ∧ f.name = "jsonpp") ∧
    (decode stubEnv jsonppLoaded "jsonpp" [104, 105] true).map (fun r => commands r.2) =
      some [(["echo-info-stub", "decode"], "/formatters/jsonpp")] ∧
    toBase64 [104, 105] = [97, 71, 107, 61] ∧
    fromBase64 [97, 71, 107, 61] = [104, 105] :=
  have h1 : Reachable jsonppLoaded :=
    @Reachable.load FormattersManager.empty jsonppLoaded stubEnv [jsonppDir]
      [Event.start "echo-info-stub" ["info"] "/formatters/jsonpp"] Reachable.empty (by decide)
  ⟨h1,
    ((commands_run stubEnv jsonppLoaded [jsonppDir] "jsonpp" [104, 105] true).2.2.1 h1
      (by decide)).imp fun _ h => ⟨h.1, h.2.1⟩,
    by decide, by decide, by decide⟩

/-- C4, as the code has it: in a reachable state, a value operation on a
name that is not in the catalog, and `decode` with a callback that is not
callable, emit one error, start no process and do not call the callback.
For a name in the catalog the errors come from two layers.  Running the
process and reading its output emit one error for a process that did not
start or did not finish in time, one for a non-empty standard error and one
for a non-empty standard output that is not a JSON object
(`processErrorCount`); `encode` and `isValid` add one error of their own
when the call did not succeed and then do not call the callback, and on
success call it once if it is callable; `decode` adds no error, it calls
the callback exactly once, with its failure text when the call did not
succeed. -/
theorem error_notifications (env : Env) (s : FormattersManager) (name : String)
    (data : QByteArray) (isCallable : Bool) (hr : Reachable s) :
    (s.m_mapping.contains name = false →
      (∃ ev, decode env s name data isCallable = some (s, ev) ∧
        (errors ev).length = 1 ∧ calls ev = [] ∧ commands ev = []) ∧
      (∃ ev, encode env s name data isCallable = some (s, ev) ∧
        (errors ev).length = 1 ∧ calls ev = [] ∧ commands ev = []) ∧
      (∃ ev, isValid env s name data isCallable = some (s, ev) ∧
        (errors ev).length = 1 ∧ calls ev = [] ∧ commands ev = [])) ∧
    (s.m_mapping.contains name = true →
      (∃ ev, decode env s name data false = some (s, ev) ∧
        (errors ev).length = 1 ∧ calls ev = [] ∧ commands ev = []) ∧
      ∃ f, formatterAt s name = some (s, f) ∧ f.name = name ∧
        (∃ ev, decode env s name data true = some (s, ev) ∧
          (errors ev).length = processErrorCount env.qt
            (env.process (f.cmd_list ++ ["decode"]) f.cwd (toBase64 data)) ∧
          (calls ev).length = 1) ∧
        (∃ ev, encode env s name data isCallable = some (s, ev) ∧
          (errors ev).length = processErrorCount env.qt
              (env.process (f.cmd_list ++ ["encode"]) f.cwd (toBase64 data)) +
            (if succeeded env.qt (env.process (f.cmd_list ++ ["encode"]) f.cwd (toBase64 data))
              then 0 else 1) ∧
          (calls ev).length =
            if succeeded env.qt (env.process (f.cmd_list ++ ["encode"]) f.cwd (toBase64 data))
              ∧ isCallable then 1 else 0) ∧
        (∃ ev, isValid env s name data isCallable = some (s, ev) ∧
          (errors ev).length = processErrorCount env.qt
              (env.process (f.cmd_list ++ ["validate"]) f.cwd (toBase64 data)) +
            (if succeeded env.qt
                (env.process (f.cmd_list ++ ["validate"]) f.cwd (toBase64 data))
              then 0 else 1) ∧
          (calls ev).length =
            if succeeded env.qt
                (env.process (f.cmd_list ++ ["validate"]) f.cwd (toBase64 data))
              ∧ isCallable then 1 else 0)) := by
  constructor
  · intro h
    obtain ⟨h1, h2, h3⟩ := unknown_name_events env s name data isCallable h
    exact ⟨⟨_, h1, rfl, rfl, rfl⟩, ⟨_, h2, rfl, rfl, rfl⟩, ⟨_, h3, rfl, rfl, rfl⟩⟩
  · intro hn
    refine ⟨⟨[Event.error ⟨env.qt.translate "RDM" "Invalid callback", []⟩],
      by simp [decode, hn], rfl, rfl, rfl⟩, ?_⟩
    obtain ⟨f, hf, hfn, _⟩ := reachable_formatterAt s hr name hn
    obtain ⟨ev1, hd, _, _, hd3, hd4⟩ := decode_spec env s s name data f hn hf
    obtain ⟨ev2, hv, _, _, hv3, hv4⟩ := isValid_spec env s s name data isCallable f hn hf
    obtain ⟨ev3, he, _, _, he3, he4⟩ := encode_spec env s s name data isCallable f hn hf
    refine ⟨f, hf, hfn, ⟨ev1, hd, ?_, ?_⟩, ⟨ev3, he, ?_, ?_⟩, ⟨ev2, hv, ?_, ?_⟩⟩
    · rw [hd3, processErrorCount_eq]
    · rw [hd4]; rfl
    · rw [he3, List.length_append, processErrorCount_eq, succeeded_eq]
      cases succeeded env.qt (env.process (f.cmd_list ++ ["encode"]) f.cwd (toBase64 data))
        <;> simp
    · rw [he4, succeeded_eq]
      cases succeeded env.qt (env.process (f.cmd_list ++ ["encode"]) f.cwd (toBase64 data))
        <;> cases isCallable <;> simp
    · rw [hv3, List.length_append, processErrorCount_eq, succeeded_eq]
      cases succeeded env.qt (env.process (f.cmd_list ++ ["validate"]) f.cwd (toBase64 data))
        <;> simp
    · rw [hv4, succeeded_eq]
      cases succeeded env.qt (env.process (f.cmd_list ++ ["validate"]) f.cwd (toBase64 data))
        <;> cases isCallable <;> simp

/-- Witness of `error_notifications`: in the manager that holds `jsonpp`,
`isValid` on a stub that prints text that is not JSON emits two errors and
does not call the callback. -/
theorem error_notifications_witness :
    Reachable jsonppLoaded ∧
    (isValid stubEnv jsonppLoaded "jsonpp" [104, 105] true).map (fun r => errors r.2) =
      some [⟨"Formatter returned invalid json: %1", ["\t"]⟩,
        ⟨"Cannot validate value using %1 formatter.", ["jsonpp"]⟩] ∧
    ∃ ev, decode stubEnv jsonppLoaded "jsonpp" [104, 105] false = some (jsonppLoaded, ev) ∧
      (errors ev).length = 1 ∧ calls ev = [] ∧ commands ev = [] :=
  have h1 : Reachable jsonppLoaded :=
    @Reachable.load FormattersManager.empty jsonppLoaded stubEnv [jsonppDir]
      [Event.start "echo-info-stub" ["info"] "/formatters/jsonpp"] Reachable.empty (by decide)
  ⟨h1, by decide,
    ((error_notifications stubEnv jsonppLoaded "jsonpp" [104, 105] false h1).2 (by decide)).1⟩

/-- C4 fails as stated: `encode` for `jsonpp`, whose process does not start,
ends in failure with two error notifications, the one of the process and
the one of `encode`. -/
theorem error_notifications_counterexample :
    (encode stubEnv jsonppLoaded "jsonpp" [104, 105] true).map (fun r => errors r.2) =
      some [⟨"Cannot start process %1: %2",
          ["echo-info-stub encode", "No such file or directory"]⟩,
        ⟨"Cannot encode value using %1 formatter. ", ["jsonpp"]⟩] := by
  decide

end ValueEditor
